import Mathlib

/-
  Verification development for migrator.go (lilyrcodes/calendarmigrator).

  The program lists every event of a source calendar account, re-creates each
  one on a destination account (copyEvent) and removes it from the source
  (deleteEvent), retrying each provider call a fixed number of times.

  Embedding.  The provider (Google Calendar API) is an arbitrary state machine
  over a world type W.  Every provider call and every time.Sleep is appended to
  a chronological trace.  calendar.Event values are records; the one field the
  program writes THROUGH a pointer, Reminders, is an address into a store of
  EventReminders records, so that the sharing created by the shallow copy
  in copyEvent (line 90) is visible.  A nil-pointer dereference is a crash and
  is returned as Except.error.  Log output (log.Printf, fmt.Printf) is not part
  of the trace.
-/

namespace CalendarMigrator

-- ---------------------------------------------------------------------------
-- Constants (migrator.go lines 19-24); durations in nanoseconds (time.Duration)
-- ---------------------------------------------------------------------------

/-- Nanoseconds in time.Second. -/
def Second : Nat := 1000000000

/-- Line 20: const COPY_RETRIES = 12. -/
def COPY_RETRIES : Nat := 12

/-- Line 21: const DELETE_RETRIES = 12. -/
def DELETE_RETRIES : Nat := 12

/-- Line 22: const COPY_RETRY_DELAY = time.Second * 5. -/
def COPY_RETRY_DELAY : Nat := Second * 5

/-- Line 23: const DELETE_RETRY_DELAY = time.Second * 5. -/
def DELETE_RETRY_DELAY : Nat := Second * 5

/-- Line 24: const DEFAULT_CALENDAR_ID = "primary". -/
def DEFAULT_CALENDAR_ID : String := "primary"

-- ---------------------------------------------------------------------------
-- Data model: the parts of google.golang.org/api/calendar/v3 the program uses
-- ---------------------------------------------------------------------------

/-- Record calendar.EventReminder (one reminder override). -/
structure EventReminder where
  Method : String
  Minutes : Int
  deriving DecidableEq, Repr

/-- Record calendar.EventReminders: the target of the pointer Event.Reminders. -/
structure EventReminders where
  Overrides : List EventReminder
  UseDefault : Bool
  deriving DecidableEq, Repr

/-- Record calendar.EventAttendee. -/
structure EventAttendee where
  Email : String
  ResponseStatus : String
  deriving DecidableEq, Repr

/-- Record calendar.EventCreator. -/
structure EventCreator where
  Email : String
  DisplayName : String
  deriving DecidableEq, Repr

/-- Record calendar.EventOrganizer. -/
structure EventOrganizer where
  Email : String
  DisplayName : String
  deriving DecidableEq, Repr

/-- Record calendar.EventDateTime: a full timestamp or a date-only value. -/
structure EventDateTime where
  DateTime : String
  Date : String
  deriving DecidableEq, Repr

/-- Record calendar.Event.  Pointer fields that the program only overwrites or
reads are options (none is nil).  Reminders is a pointer the program writes
through (line 101), so it is an address into the reminders store (none is nil).
Summary, Description, Location and Status stand for the fields that are copied
verbatim. -/
structure Event where
  Id : String
  Etag : String
  HangoutLink : String
  HtmlLink : String
  ICalUID : String
  RecurringEventId : String
  Summary : String
  Description : String
  Location : String
  Status : String
  Creator : Option EventCreator
  Organizer : Option EventOrganizer
  Start : Option EventDateTime
  End : Option EventDateTime
  Attendees : List EventAttendee
  Reminders : Option Nat
  deriving DecidableEq, Repr

/-- Record calendar.Events: one page of a listing. -/
structure Events where
  Items : List Event
  NextPageToken : String
  deriving DecidableEq, Repr

/-- The store of EventReminders records, by address.  It is total: Go has no
dangling pointers, so a non-nil pointer always has a target. -/
abbrev Heap := Nat → EventReminders

/-- Assignment through a pointer: the record at address a becomes r. -/
def Heap.write (h : Heap) (a : Nat) (r : EventReminders) : Heap :=
  fun b => if b = a then r else h b

/-- The record a (possibly nil) Reminders pointer refers to. -/
def deref (h : Heap) : Option Nat → Option EventReminders
  | none => none
  | some a => some (h a)

/-- The two service handles created in main (lines 146-150). -/
inductive Srv where
  | source
  | dest
  deriving DecidableEq, Repr

/-- What an Insert call can see of the event it is handed by pointer: the
struct itself and the reminders record its pointer refers to at call time. -/
structure Payload where
  event : Event
  reminders : Option EventReminders
  deriving DecidableEq, Repr

/-- The provider as an arbitrary state machine.  Each call returns true
exactly when the Go call returns err == nil.  sleep lets the world observe
elapsed time.  The calls do not write to the program's memory. -/
structure Provider (W : Type) where
  list : W → Srv → String → String → Option Events × W
  insert : W → Srv → String → Payload → Bool × W
  delete : W → Srv → String → String → Bool × W
  sleep : W → Nat → W

/-- One observable step: a provider call with its arguments (and outcome), or
a time.Sleep with its duration. -/
inductive Action where
  | list (srv : Srv) (calendarId : String) (pageToken : String)
  | insert (srv : Srv) (calendarId : String) (payload : Payload) (ok : Bool)
  | delete (srv : Srv) (calendarId : String) (eventId : String) (ok : Bool)
  | sleep (d : Nat)
  deriving DecidableEq, Repr

/-- Is the action a Delete call. -/
def Action.isDelete : Action → Bool
  | .delete _ _ _ _ => true
  | _ => false

/-- Is the action an Insert call. -/
def Action.isInsert : Action → Bool
  | .insert _ _ _ _ => true
  | _ => false

/-- Is the action a time.Sleep. -/
def Action.isSleep : Action → Bool
  | .sleep _ => true
  | _ => false

/-- Duration of a sleep action, 0 for the others. -/
def Action.slept : Action → Nat
  | .sleep d => d
  | _ => 0

/-- Total time slept in a trace segment. -/
def totalSlept (seg : List Action) : Nat :=
  (seg.map Action.slept).sum

/-- Program state: the provider world, the reminders store, and the
chronological trace of provider calls and sleeps. -/
structure St (W : Type) where
  world : W
  heap : Heap
  trace : List Action

/-- How a listing can fail to return: log.Fatalf (line 52) ends the process;
fuel is the bound of the model on the number of loop iterations. -/
inductive Fault where
  | fatal
  | fuel
  deriving DecidableEq, Repr

-- ---------------------------------------------------------------------------
-- getNextPage / getEvents (lines 48-65)
-- ---------------------------------------------------------------------------

/-- Lines 48-55.  Events.List(DEFAULT_CALENDAR_ID) with the fixed options
ShowDeleted(false), SingleEvents(true), OrderBy("startTime") and the given page
token; none is the log.Fatalf exit. -/
def getNextPage {W : Type} (P : Provider W) (srv : Srv) (nextPageToken : String)
    (s : St W) : Option (Events × St W) :=
  match P.list s.world srv DEFAULT_CALENDAR_ID nextPageToken with
  | (some events, w) =>
      some (events, { s with world := w,
                             trace := s.trace ++ [Action.list srv DEFAULT_CALENDAR_ID nextPageToken] })
  | (none, _) => none

/-- Lines 60-63: the loop "for events.NextPageToken != ..." with an iteration
bound. -/
def getEventsLoop {W : Type} (P : Provider W) (srv : Srv) :
    Nat → Events → List Event → St W → Except Fault (List Event × St W)
  | 0, events, items, s =>
      if events.NextPageToken = "" then .ok (items, s) else .error Fault.fuel
  | fuel + 1, events, items, s =>
      if events.NextPageToken = "" then .ok (items, s)
      else
        match getNextPage P srv events.NextPageToken s with
        | none => .error Fault.fatal
        | some (events1, s1) => getEventsLoop P srv fuel events1 (items ++ events1.Items) s1

/-- Lines 57-65. -/
def getEvents {W : Type} (P : Provider W) (srv : Srv) (fuel : Nat) (s : St W) :
    Except Fault (List Event × St W) :=
  match getNextPage P srv "" s with
  | none => .error Fault.fatal
  | some (events, s1) => getEventsLoop P srv fuel events events.Items s1

-- ---------------------------------------------------------------------------
-- copyEvent (lines 87-114)
-- ---------------------------------------------------------------------------

/-- Lines 90-99: the shallow copy c := *event followed by the assignments to
the fields of c.  Reminders is not assigned: c.Reminders is the SAME pointer
as event.Reminders.  make([]*calendar.EventAttendee, 0, 1) is the empty list. -/
def clearFields (event : Event) : Event :=
  { event with
    Id := "", Creator := none, Etag := "", HangoutLink := "", HtmlLink := "",
    ICalUID := "", Organizer := none, RecurringEventId := "", Attendees := [] }

/-- Lines 100-102, for a non-nil c.Reminders at address a: when the record
has UseDefault set, its Overrides field is assigned the empty list
make([]*calendar.EventReminder, 0, 1).  The assignment goes through the
pointer, so it is a write to the store. -/
def normalizeReminders (h : Heap) (a : Nat) : Heap :=
  if (h a).UseDefault then h.write a { h a with Overrides := [] } else h

/-- Lines 90-102: the copy c and the store after lines 100-102.  none is the
nil-pointer dereference of c.Reminders.UseDefault (line 100) when the pointer
is nil. -/
def sanitize (event : Event) (h : Heap) : Option (Event × Heap) :=
  let c : Event := clearFields event
  match c.Reminders with
  | none => none
  | some a => some (c, normalizeReminders h a)

/-- Lines 103-113: the retry loop of copyEvent; the numeric argument is the
number of iterations left (COPY_RETRIES - i).  On an error the loop sleeps
and goes on (lines 105-107); on success it returns true (line 109); when the
counter runs out it returns false (line 113). -/
def insertLoop {W : Type} (P : Provider W) (srv : Srv) (c : Event) :
    Nat → St W → Bool × St W
  | 0, s => (false, s)
  | n + 1, s =>
      let payload : Payload := ⟨c, deref s.heap c.Reminders⟩
      let r := P.insert s.world srv DEFAULT_CALENDAR_ID payload
      if r.1 then
        (true, { s with world := r.2,
                        trace := s.trace ++ [Action.insert srv DEFAULT_CALENDAR_ID payload true] })
      else
        insertLoop P srv c n
          { s with world := P.sleep r.2 COPY_RETRY_DELAY,
                   trace := s.trace ++ [Action.insert srv DEFAULT_CALENDAR_ID payload false,
                                        Action.sleep COPY_RETRY_DELAY] }

/-- Lines 87-114.  Except.error is the crash (nil dereference), with the state
at the crash. -/
def copyEvent {W : Type} (P : Provider W) (srv : Srv) (event : Event) (s : St W) :
    Except (St W) (Bool × St W) :=
  match sanitize event s.heap with
  | none => .error s
  | some (c, h) => .ok (insertLoop P srv c COPY_RETRIES { s with heap := h })

-- ---------------------------------------------------------------------------
-- deleteEvent (lines 116-129)
-- ---------------------------------------------------------------------------

/-- Lines 118-126: the retry loop of deleteEvent; the numeric argument is the
number of iterations left (DELETE_RETRIES - i). -/
def deleteLoop {W : Type} (P : Provider W) (srv : Srv) (event : Event) :
    Nat → St W → Bool × St W
  | 0, s => (false, s)
  | n + 1, s =>
      let r := P.delete s.world srv DEFAULT_CALENDAR_ID event.Id
      if r.1 then
        (true, { s with world := r.2,
                        trace := s.trace ++ [Action.delete srv DEFAULT_CALENDAR_ID event.Id true] })
      else
        deleteLoop P srv event n
          { s with world := P.sleep r.2 DELETE_RETRY_DELAY,
                   trace := s.trace ++ [Action.delete srv DEFAULT_CALENDAR_ID event.Id false,
                                        Action.sleep DELETE_RETRY_DELAY] }

/-- Lines 116-129. -/
def deleteEvent {W : Type} (P : Provider W) (srv : Srv) (event : Event) (s : St W) :
    Bool × St W :=
  deleteLoop P srv event DELETE_RETRIES s

-- ---------------------------------------------------------------------------
-- The migration loop of main (lines 152-170)
-- ---------------------------------------------------------------------------

/-- State of the loop of main: program state and the two failure lists
(lines 152-153). -/
structure LoopSt (W : Type) where
  st : St W
  copyFailed : List Event
  deleteFailed : List Event

/-- Lines 158-167: one iteration of the loop of main.  Except.error is a crash
inside copyEvent, with the loop state at the crash. -/
def body {W : Type} (P : Provider W) (item : Event) (ls : LoopSt W) :
    Except (LoopSt W) (LoopSt W) :=
  match copyEvent P Srv.dest item ls.st with
  | .error s => .error { ls with st := s }
  | .ok (false, s1) =>
      .ok { st := s1, copyFailed := ls.copyFailed ++ [item],
            deleteFailed := ls.deleteFailed ++ [item] }
  | .ok (true, s1) =>
      match deleteEvent P Srv.source item s1 with
      | (false, s2) =>
          .ok { st := s2, copyFailed := ls.copyFailed,
                deleteFailed := ls.deleteFailed ++ [item] }
      | (true, s2) =>
          .ok { st := s2, copyFailed := ls.copyFailed, deleteFailed := ls.deleteFailed }

/-- Lines 157-170: the loop over items. -/
def mainLoop {W : Type} (P : Provider W) : List Event → LoopSt W → Except (LoopSt W) (LoopSt W)
  | [], ls => .ok ls
  | item :: rest, ls =>
      match body P item ls with
      | .error ls1 => .error ls1
      | .ok ls1 => mainLoop P rest ls1

/-- Lines 152-153: the loop starts with two empty failure lists. -/
def initLoop {W : Type} (s : St W) : LoopSt W :=
  { st := s, copyFailed := [], deleteFailed := [] }

/-- The loop state a run stopped in, whether it ended or crashed. -/
def finalOf {W : Type} : Except (LoopSt W) (LoopSt W) → LoopSt W
  | .ok ls => ls
  | .error ls => ls

-- ---------------------------------------------------------------------------
-- Vocabulary for stating results about traces and provider behaviour
-- ---------------------------------------------------------------------------

/-- The segment seg repeated n times. -/
def cycle (seg : List Action) : Nat → List Action
  | 0 => []
  | n + 1 => seg ++ cycle seg n

/-- The failed Insert call on payload p followed by the sleep of lines 105-107. -/
def failedInsert (srv : Srv) (p : Payload) : List Action :=
  [Action.insert srv DEFAULT_CALENDAR_ID p false, Action.sleep COPY_RETRY_DELAY]

/-- The failed Delete call on id followed by the sleep of lines 120-122. -/
def failedDelete (srv : Srv) (id : String) : List Action :=
  [Action.delete srv DEFAULT_CALENDAR_ID id false, Action.sleep DELETE_RETRY_DELAY]

/-- The provider world after k Insert attempts on payload p, each followed by the
retry sleep. -/
def copyWorld {W : Type} (P : Provider W) (srv : Srv) (p : Payload) : Nat → W → W
  | 0, w => w
  | k + 1, w =>
      copyWorld P srv p k (P.sleep (P.insert w srv DEFAULT_CALENDAR_ID p).2 COPY_RETRY_DELAY)

/-- The provider world after k Delete attempts on id, each followed by the retry
sleep. -/
def deleteWorld {W : Type} (P : Provider W) (srv : Srv) (id : String) : Nat → W → W
  | 0, w => w
  | k + 1, w =>
      deleteWorld P srv id k (P.sleep (P.delete w srv DEFAULT_CALENDAR_ID id).2 DELETE_RETRY_DELAY)

/-- The state a run of copyEvent stopped in, whether it returned or crashed. -/
def copyFinal {W : Type} : Except (St W) (Bool × St W) → St W
  | .ok (_, s) => s
  | .error s => s

/-- The trace of a run of copyEvent, whether it returned or crashed. -/
def copyTrace {W : Type} : Except (St W) (Bool × St W) → List Action
  | .ok (_, s) => s.trace
  | .error s => s.trace

/-- The reminders store after a run of copyEvent, whether it returned or crashed. -/
def copyHeap {W : Type} : Except (St W) (Bool × St W) → Heap
  | .ok (_, s) => s.heap
  | .error s => s.heap

/-- The value copyEvent returned; none when it crashed. -/
def copyResult {W : Type} : Except (St W) (Bool × St W) → Option Bool
  | .ok (b, _) => some b
  | .error _ => none

/-- The payload copyEvent hands to Insert for an event whose Reminders pointer
is the address a, from store h: the copy c of lines 90-99 together with the
record c.Reminders refers to after lines 100-102. -/
def payloadOf (e : Event) (h : Heap) (a : Nat) : Payload :=
  ⟨clearFields e, some (normalizeReminders h a a)⟩

/-- The page tokens getEvents sends for a chain of pages: the empty token, then
the NextPageToken of every page but the last. -/
def fetchTokens (pages : List Events) : List String :=
  "" :: (pages.dropLast.map Events.NextPageToken)

/-- The provider serves the chain of pages: from world w the token tok fetches
the first page, each NextPageToken fetches the next page, and only the last
page has an empty NextPageToken. -/
def servesChain {W : Type} (P : Provider W) (srv : Srv) : W → String → List Events → Bool
  | _, _, [] => false
  | w, tok, [p] =>
      decide ((P.list w srv DEFAULT_CALENDAR_ID tok).1 = some p) && decide (p.NextPageToken = "")
  | w, tok, p :: q :: rest =>
      decide ((P.list w srv DEFAULT_CALENDAR_ID tok).1 = some p) &&
        (decide (p.NextPageToken ≠ "") &&
          servesChain P srv (P.list w srv DEFAULT_CALENDAR_ID tok).2 p.NextPageToken (q :: rest))

-- ---------------------------------------------------------------------------
-- The migration record of the specification (sections 3 and 4.2)
-- ---------------------------------------------------------------------------

/-- The migration record of spec section 3: the outcome state of one event. -/
inductive Outcome where
  | migrated
  | copyFailed
  | deleteFailedAfterCopy
  deriving DecidableEq, Repr

/-- What one iteration of the loop did for its event, as it shows in the trace:
the outcome, the payload handed to Insert, and the numbers of failed Insert
and failed Delete attempts. -/
structure Attempted where
  outcome : Outcome
  payload : Payload
  failedCopies : Nat
  failedDeletes : Nat

/-- The trace segment of an iteration for event E, by outcome (spec section
4.2, steps 2 and 3).  Copy failed: only failed Insert attempts.  Delete failed
after copy: failed Insert attempts, the successful Insert, then only failed
Delete attempts on the Id of E.  Migrated: the same, ended by the successful
Delete. -/
def Attempted.segment (E : Event) (r : Attempted) : List Action :=
  match r.outcome with
  | .copyFailed => cycle (failedInsert Srv.dest r.payload) r.failedCopies
  | .deleteFailedAfterCopy =>
      cycle (failedInsert Srv.dest r.payload) r.failedCopies ++
        [Action.insert Srv.dest DEFAULT_CALENDAR_ID r.payload true] ++
        cycle (failedDelete Srv.source E.Id) r.failedDeletes
  | .migrated =>
      cycle (failedInsert Srv.dest r.payload) r.failedCopies ++
        [Action.insert Srv.dest DEFAULT_CALENDAR_ID r.payload true] ++
        cycle (failedDelete Srv.source E.Id) r.failedDeletes ++
        [Action.delete Srv.source DEFAULT_CALENDAR_ID E.Id true]

/-- The retry budgets of spec section 4.2 on a record for event E: the payload is
the sanitized copy of E; a phase that failed used all 12 attempts, a phase that
succeeded had fewer than 12 failures; no Delete is attempted after a failed
copy. -/
def Attempted.valid (E : Event) (r : Attempted) : Bool :=
  decide (r.payload.event = clearFields E) &&
    match r.outcome with
    | .copyFailed => decide (r.failedCopies = COPY_RETRIES) && decide (r.failedDeletes = 0)
    | .deleteFailedAfterCopy =>
        decide (r.failedCopies < COPY_RETRIES) && decide (r.failedDeletes = DELETE_RETRIES)
    | .migrated =>
        decide (r.failedCopies < COPY_RETRIES) && decide (r.failedDeletes < DELETE_RETRIES)

/-- The events, in source order, whose outcome satisfies q. -/
def select (items : List Event) (os : List Outcome) (q : Outcome → Bool) : List Event :=
  ((items.zip os).filter (fun x => q x.2)).map Prod.fst

-- ---------------------------------------------------------------------------
-- Concrete inputs
-- ---------------------------------------------------------------------------

/-- A fully populated event with the given id, summary and reminders pointer. -/
def sampleEvent (id summary : String) (rem : Option Nat) : Event :=
  { Id := id, Etag := "etag", HangoutLink := "https://meet.example/x",
    HtmlLink := "https://calendar.example/e", ICalUID := "uid@example",
    RecurringEventId := "series", Summary := summary, Description := "d",
    Location := "room", Status := "confirmed",
    Creator := some ⟨"a@example", "A"⟩, Organizer := some ⟨"b@example", "B"⟩,
    Start := some ⟨"2024-01-01T10:00:00Z", ""⟩, End := some ⟨"2024-01-01T11:00:00Z", ""⟩,
    Attendees := [⟨"c@example", "accepted"⟩], Reminders := rem }

/-- A reminders store: address 0 uses the default reminders and still carries an
override, address 1 has its own override, every other address is blank. -/
def sampleHeap : Heap := fun a =>
  if a = 0 then { Overrides := [⟨"popup", 10⟩], UseDefault := true }
  else if a = 1 then { Overrides := [⟨"email", 30⟩], UseDefault := false }
  else { Overrides := [], UseDefault := false }

/-- A provider on which every call fails. -/
def failing : Provider Unit :=
  { list := fun w _ _ _ => (none, w),
    insert := fun w _ _ _ => (false, w),
    delete := fun w _ _ _ => (false, w),
    sleep := fun w _ => w }

/-- The provider of the end-to-end scenario: copying the event with summary E2
always fails, deleting the event with id e3 always fails, every other call
succeeds. -/
def scenario : Provider Unit :=
  { list := fun w _ _ _ => (none, w),
    insert := fun w _ _ p => (decide (p.event.Summary ≠ "E2"), w),
    delete := fun w _ _ id => (decide (id ≠ "e3"), w),
    sleep := fun w _ => w }

/-- A provider whose world counts the Insert calls made so far: Insert fails on
the first N calls and succeeds afterwards; Delete always succeeds. -/
def flaky (N : Nat) : Provider Nat :=
  { list := fun w _ _ _ => (none, w),
    insert := fun w _ _ _ => (decide (N ≤ w), w + 1),
    delete := fun w _ _ _ => (true, w),
    sleep := fun w _ => w }

/-- A provider serving three pages under the tokens "", "t1" and "t2". -/
def paged : Provider Unit :=
  { list := fun w _ _ tok =>
      if tok = "" then
        (some ⟨[sampleEvent "a" "A" (some 1)], "t1"⟩, w)
      else if tok = "t1" then
        (some ⟨[sampleEvent "b" "B" (some 1), sampleEvent "c" "C" (some 1)], "t2"⟩, w)
      else if tok = "t2" then
        (some ⟨[sampleEvent "d" "D" (some 1)], ""⟩, w)
      else (none, w),
    insert := fun w _ _ _ => (true, w),
    delete := fun w _ _ _ => (true, w),
    sleep := fun w _ => w }

/-- The three pages served by paged. -/
def samplePages : List Events :=
  [ ⟨[sampleEvent "a" "A" (some 1)], "t1"⟩,
    ⟨[sampleEvent "b" "B" (some 1), sampleEvent "c" "C" (some 1)], "t2"⟩,
    ⟨[sampleEvent "d" "D" (some 1)], ""⟩ ]

/-- An initial state over the sample store with an empty trace. -/
def sampleSt {W : Type} (w : W) : St W :=
  { world := w, heap := sampleHeap, trace := [] }

/-- Event E1 of the end-to-end scenario. -/
def E1 : Event := sampleEvent "e1" "E1" (some 1)

/-- Event E2 of the end-to-end scenario. -/
def E2 : Event := sampleEvent "e2" "E2" (some 1)

/-- Event E3 of the end-to-end scenario. -/
def E3 : Event := sampleEvent "e3" "E3" (some 1)

/-- The loop state after the first event of the end-to-end scenario. -/
def afterE1 : LoopSt Unit :=
  finalOf (mainLoop scenario [E1] (initLoop (sampleSt ())))

/-- The state after copyEvent has run for the second event of the end-to-end
scenario. -/
def afterE2copy : St Unit :=
  copyFinal (copyEvent scenario Srv.dest E2 afterE1.st)

/-- The end-to-end scenario of spec section 8, item 6: the loop over
[E1, E2, E3] from two empty failure lists. -/
def scenarioRun : Except (LoopSt Unit) (LoopSt Unit) :=
  mainLoop scenario [E1, E2, E3] (initLoop (sampleSt ()))

/-- An event whose Reminders pointer is nil. -/
def noReminders : Event := sampleEvent "n1" "N" none

/-- The loop over [E1, noReminders, E3] on the provider of the end-to-end
scenario, from two empty failure lists. -/
def stoppedRun : Except (LoopSt Unit) (LoopSt Unit) :=
  mainLoop scenario [E1, noReminders, E3] (initLoop (sampleSt ()))

/-- An event that uses the default reminders and still carries an override
(address 0 of the sample store). -/
def defaulted : Event := sampleEvent "d1" "D" (some 0)

/-- What remains to be served after page p: nothing when rest is empty (then p
has an empty NextPageToken), else the chain rest under the token of p. -/
def servesRest {W : Type} (P : Provider W) (srv : Srv) (w : W) (p : Events) :
    List Events → Bool
  | [] => decide (p.NextPageToken = "")
  | q :: r => decide (p.NextPageToken ≠ "") && servesChain P srv w p.NextPageToken (q :: r)

-- ===========================================================================
-- Theorems
-- ===========================================================================

theorem insertLoop_shape {W : Type} (P : Provider W) (srv : Srv) (c : Event) (n : Nat) (s : St W) :
    ∃ k, k ≤ n ∧ (insertLoop P srv c n s).2.heap = s.heap ∧
      (insertLoop P srv c n s).2.world =
        (if (insertLoop P srv c n s).1 then
          (P.insert (copyWorld P srv ⟨c, deref s.heap c.Reminders⟩ k s.world) srv
            DEFAULT_CALENDAR_ID ⟨c, deref s.heap c.Reminders⟩).2
         else copyWorld P srv ⟨c, deref s.heap c.Reminders⟩ k s.world) ∧
      (insertLoop P srv c n s).2.trace =
        s.trace ++ cycle (failedInsert srv ⟨c, deref s.heap c.Reminders⟩) k ++
          (if (insertLoop P srv c n s).1 then
            [Action.insert srv DEFAULT_CALENDAR_ID ⟨c, deref s.heap c.Reminders⟩ true] else []) ∧
      (∀ j, j < k → (P.insert (copyWorld P srv ⟨c, deref s.heap c.Reminders⟩ j s.world) srv
            DEFAULT_CALENDAR_ID ⟨c, deref s.heap c.Reminders⟩).1 = false) ∧
      ((insertLoop P srv c n s).1 = false → k = n) ∧
      ((insertLoop P srv c n s).1 = true → k < n ∧
        (P.insert (copyWorld P srv ⟨c, deref s.heap c.Reminders⟩ k s.world) srv
            DEFAULT_CALENDAR_ID ⟨c, deref s.heap c.Reminders⟩).1 = true) := by
  induction n generalizing s with
  | zero =>
      refine ⟨0, le_refl _, ?_⟩
      simp [insertLoop, cycle, copyWorld]
  | succ n ih =>
      by_cases h : (P.insert s.world srv DEFAULT_CALENDAR_ID ⟨c, deref s.heap c.Reminders⟩).1 = true
      · refine ⟨0, Nat.zero_le _, ?_⟩
        simp [insertLoop, h, cycle, copyWorld]
      · have hf : (P.insert s.world srv DEFAULT_CALENDAR_ID ⟨c, deref s.heap c.Reminders⟩).1 = false := by
          simpa using h
        obtain ⟨k, hk, hheap, hworld, htrace, hfail, hno, hyes⟩ := ih
          { s with world := P.sleep (P.insert s.world srv DEFAULT_CALENDAR_ID ⟨c, deref s.heap c.Reminders⟩).2 COPY_RETRY_DELAY,
                   trace := s.trace ++ failedInsert srv ⟨c, deref s.heap c.Reminders⟩ }
        refine ⟨k + 1, Nat.succ_le_succ hk, ?_⟩
        have hstep : insertLoop P srv c (n + 1) s = insertLoop P srv c n
          { s with world := P.sleep (P.insert s.world srv DEFAULT_CALENDAR_ID ⟨c, deref s.heap c.Reminders⟩).2 COPY_RETRY_DELAY,
                   trace := s.trace ++ failedInsert srv ⟨c, deref s.heap c.Reminders⟩ } := by
          simp [insertLoop, hf, failedInsert]
        rw [hstep]
        refine ⟨hheap, ?_, ?_, ?_, ?_, ?_⟩
        · simpa [copyWorld] using hworld
        · simpa [cycle, List.append_assoc] using htrace
        · intro j hj
          cases j with
          | zero => simpa [copyWorld] using hf
          | succ j => simpa [copyWorld] using hfail j (Nat.lt_of_succ_lt_succ hj)
        · intro hr; simpa using hno hr
        · intro hr
          have := hyes hr
          exact ⟨Nat.succ_lt_succ this.1, by simpa [copyWorld] using this.2⟩

theorem deleteLoop_shape {W : Type} (P : Provider W) (srv : Srv) (e : Event) (n : Nat) (s : St W) :
    ∃ k, k ≤ n ∧ (deleteLoop P srv e n s).2.heap = s.heap ∧
      (deleteLoop P srv e n s).2.world =
        (if (deleteLoop P srv e n s).1 then
          (P.delete (deleteWorld P srv e.Id k s.world) srv DEFAULT_CALENDAR_ID e.Id).2
         else deleteWorld P srv e.Id k s.world) ∧
      (deleteLoop P srv e n s).2.trace =
        s.trace ++ cycle (failedDelete srv e.Id) k ++
          (if (deleteLoop P srv e n s).1 then
            [Action.delete srv DEFAULT_CALENDAR_ID e.Id true] else []) ∧
      (∀ j, j < k →
        (P.delete (deleteWorld P srv e.Id j s.world) srv DEFAULT_CALENDAR_ID e.Id).1 = false) ∧
      ((deleteLoop P srv e n s).1 = false → k = n) ∧
      ((deleteLoop P srv e n s).1 = true → k < n ∧
        (P.delete (deleteWorld P srv e.Id k s.world) srv DEFAULT_CALENDAR_ID e.Id).1 = true) := by
  induction n generalizing s with
  | zero =>
      refine ⟨0, le_refl _, ?_⟩
      simp [deleteLoop, cycle, deleteWorld]
  | succ n ih =>
      by_cases h : (P.delete s.world srv DEFAULT_CALENDAR_ID e.Id).1 = true
      · refine ⟨0, Nat.zero_le _, ?_⟩
        simp [deleteLoop, h, cycle, deleteWorld]
      · have hf : (P.delete s.world srv DEFAULT_CALENDAR_ID e.Id).1 = false := by
          simpa using h
        obtain ⟨k, hk, hheap, hworld, htrace, hfail, hno, hyes⟩ := ih
          { s with world := P.sleep (P.delete s.world srv DEFAULT_CALENDAR_ID e.Id).2 DELETE_RETRY_DELAY,
                   trace := s.trace ++ failedDelete srv e.Id }
        refine ⟨k + 1, Nat.succ_le_succ hk, ?_⟩
        have hstep : deleteLoop P srv e (n + 1) s = deleteLoop P srv e n
          { s with world := P.sleep (P.delete s.world srv DEFAULT_CALENDAR_ID e.Id).2 DELETE_RETRY_DELAY,
                   trace := s.trace ++ failedDelete srv e.Id } := by
          simp [deleteLoop, hf, failedDelete]
        rw [hstep]
        refine ⟨hheap, ?_, ?_, ?_, ?_, ?_⟩
        · simpa [deleteWorld] using hworld
        · simpa [cycle, List.append_assoc] using htrace
        · intro j hj
          cases j with
          | zero => simpa [deleteWorld] using hf
          | succ j => simpa [deleteWorld] using hfail j (Nat.lt_of_succ_lt_succ hj)
        · intro hr; simpa using hno hr
        · intro hr
          have := hyes hr
          exact ⟨Nat.succ_lt_succ this.1, by simpa [deleteWorld] using this.2⟩

theorem mem_cycle {seg : List Action} {k : Nat} {a : Action} (h : a ∈ cycle seg k) : a ∈ seg := by
  induction k with
  | zero => simp [cycle] at h
  | succ k ih =>
      simp only [cycle, List.mem_append] at h
      rcases h with h | h
      · exact h
      · exact ih h

theorem cycle_add (seg : List Action) (j k : Nat) :
    cycle seg (j + k) = cycle seg j ++ cycle seg k := by
  induction j with
  | zero => simp [cycle]
  | succ j ih =>
      have : j + 1 + k = (j + k) + 1 := by omega
      rw [this]
      simp [cycle, ih, List.append_assoc]

theorem cycle_snoc (seg : List Action) (k : Nat) :
    cycle seg (k + 1) = cycle seg k ++ seg := by
  have := cycle_add seg k 1
  simpa [cycle] using this

theorem insertCount_failedInsert (srv : Srv) (p : Payload) (k : Nat) :
    ((cycle (failedInsert srv p) k).filter Action.isInsert).length = k := by
  induction k with
  | zero => simp [cycle]
  | succ k ih =>
      simp [cycle, failedInsert, List.filter_cons, Action.isInsert] at ih ⊢
      exact ih

theorem sleepCount_failedInsert (srv : Srv) (p : Payload) (k : Nat) :
    ((cycle (failedInsert srv p) k).filter Action.isSleep).length = k := by
  induction k with
  | zero => simp [cycle]
  | succ k ih =>
      simp [cycle, failedInsert, List.filter_cons, Action.isSleep] at ih ⊢
      exact ih

theorem deleteCount_failedDelete (srv : Srv) (id : String) (k : Nat) :
    ((cycle (failedDelete srv id) k).filter Action.isDelete).length = k := by
  induction k with
  | zero => simp [cycle]
  | succ k ih =>
      simp [cycle, failedDelete, List.filter_cons, Action.isDelete] at ih ⊢
      exact ih

theorem sleepCount_failedDelete (srv : Srv) (id : String) (k : Nat) :
    ((cycle (failedDelete srv id) k).filter Action.isSleep).length = k := by
  induction k with
  | zero => simp [cycle]
  | succ k ih =>
      simp [cycle, failedDelete, List.filter_cons, Action.isSleep] at ih ⊢
      exact ih

theorem totalSlept_append (l₁ l₂ : List Action) :
    totalSlept (l₁ ++ l₂) = totalSlept l₁ + totalSlept l₂ := by
  simp [totalSlept]

theorem totalSlept_cycle_pair (a : Action) (d k : Nat) (ha : a.slept = 0) :
    totalSlept (cycle [a, Action.sleep d] k) = k * d := by
  induction k with
  | zero => simp [cycle, totalSlept]
  | succ k ih =>
      have h1 : totalSlept [a, Action.sleep d] = d := by
        have hs : (Action.sleep d).slept = d := rfl
        simp [totalSlept, ha, hs]
      rw [cycle, totalSlept_append, ih, h1, Nat.succ_mul, Nat.add_comm]

theorem totalSlept_failedInsert (srv : Srv) (p : Payload) (k : Nat) :
    totalSlept (cycle (failedInsert srv p) k) = k * COPY_RETRY_DELAY :=
  totalSlept_cycle_pair _ COPY_RETRY_DELAY k rfl

theorem totalSlept_failedDelete (srv : Srv) (id : String) (k : Nat) :
    totalSlept (cycle (failedDelete srv id) k) = k * DELETE_RETRY_DELAY :=
  totalSlept_cycle_pair _ DELETE_RETRY_DELAY k rfl

theorem copyEvent_nil {W : Type} (P : Provider W) (srv : Srv) (e : Event) (s : St W)
    (h : e.Reminders = none) : copyEvent P srv e s = .error s := by
  simp [copyEvent, sanitize, clearFields, h]

theorem copyEvent_some {W : Type} (P : Provider W) (srv : Srv) (e : Event) (a : Nat) (s : St W)
    (h : e.Reminders = some a) :
    copyEvent P srv e s =
      .ok (insertLoop P srv (clearFields e) COPY_RETRIES
            { s with heap := normalizeReminders s.heap a }) := by
  simp [copyEvent, sanitize, clearFields, h]

theorem copyEvent_shape {W : Type} (P : Provider W) (srv : Srv) (e : Event) (a : Nat) (s : St W)
    (h : e.Reminders = some a) :
    ∃ b s1 k, copyEvent P srv e s = .ok (b, s1) ∧ k ≤ COPY_RETRIES ∧
      s1.heap = normalizeReminders s.heap a ∧
      s1.world =
        (if b then
          (P.insert (copyWorld P srv (payloadOf e s.heap a) k s.world) srv
            DEFAULT_CALENDAR_ID (payloadOf e s.heap a)).2
         else copyWorld P srv (payloadOf e s.heap a) k s.world) ∧
      s1.trace = s.trace ++ cycle (failedInsert srv (payloadOf e s.heap a)) k ++
          (if b then [Action.insert srv DEFAULT_CALENDAR_ID (payloadOf e s.heap a) true] else []) ∧
      (∀ j, j < k → (P.insert (copyWorld P srv (payloadOf e s.heap a) j s.world) srv
            DEFAULT_CALENDAR_ID (payloadOf e s.heap a)).1 = false) ∧
      (b = false → k = COPY_RETRIES) ∧
      (b = true → k < COPY_RETRIES ∧
        (P.insert (copyWorld P srv (payloadOf e s.heap a) k s.world) srv
            DEFAULT_CALENDAR_ID (payloadOf e s.heap a)).1 = true) := by
  obtain ⟨k, hk, hheap, hworld, htrace, hfail, hno, hyes⟩ :=
    insertLoop_shape P srv (clearFields e) COPY_RETRIES { s with heap := normalizeReminders s.heap a }
  have hp : (⟨clearFields e, deref (normalizeReminders s.heap a) (clearFields e).Reminders⟩ : Payload)
      = payloadOf e s.heap a := by
    simp [payloadOf, clearFields, h, deref]
  simp only [hp] at hworld htrace hfail hyes
  refine ⟨_, _, k, ?_, hk, hheap, hworld, htrace, hfail, hno, hyes⟩
  rw [copyEvent_some P srv e a s h]

theorem deleteEvent_shape {W : Type} (P : Provider W) (srv : Srv) (e : Event) (s : St W) :
    ∃ b s1 k, deleteEvent P srv e s = (b, s1) ∧ k ≤ DELETE_RETRIES ∧ s1.heap = s.heap ∧
      s1.world =
        (if b then (P.delete (deleteWorld P srv e.Id k s.world) srv DEFAULT_CALENDAR_ID e.Id).2
         else deleteWorld P srv e.Id k s.world) ∧
      s1.trace = s.trace ++ cycle (failedDelete srv e.Id) k ++
          (if b then [Action.delete srv DEFAULT_CALENDAR_ID e.Id true] else []) ∧
      (∀ j, j < k →
        (P.delete (deleteWorld P srv e.Id j s.world) srv DEFAULT_CALENDAR_ID e.Id).1 = false) ∧
      (b = false → k = DELETE_RETRIES) ∧
      (b = true → k < DELETE_RETRIES ∧
        (P.delete (deleteWorld P srv e.Id k s.world) srv DEFAULT_CALENDAR_ID e.Id).1 = true) := by
  obtain ⟨k, hk, hheap, hworld, htrace, hfail, hno, hyes⟩ :=
    deleteLoop_shape P srv e DELETE_RETRIES s
  exact ⟨_, _, k, rfl, hk, hheap, hworld, htrace, hfail, hno, hyes⟩

/-- C4 (retry bound).  With a provider on which every Insert and every Delete
fails: the retry loop of copyEvent, for every payload, makes exactly 12 Insert
calls and returns false; so copyEvent does, for every event whose reminders
record is present (the loop is entered after line 100, which needs the
record); and deleteEvent, for every event, makes exactly 12 Delete calls and
returns false.  In each case the trace grows by exactly 12 failed attempts.
And for any provider at all, neither ever makes more than 12 calls. -/
theorem retry_bound {W : Type} (P : Provider W) (srv : Srv) (s : St W)
    (hins : ∀ w sv cal p, (P.insert w sv cal p).1 = false)
    (hdel : ∀ w sv cal id, (P.delete w sv cal id).1 = false) :
    (∀ c : Event, ∃ s1 seg, insertLoop P srv c COPY_RETRIES s = (false, s1) ∧
        s1.trace = s.trace ++ seg ∧
        seg = cycle (failedInsert srv ⟨c, deref s.heap c.Reminders⟩) 12 ∧
        (seg.filter Action.isInsert).length = 12) ∧
    (∀ (e : Event) (a : Nat), e.Reminders = some a →
      ∃ s1 seg, copyEvent P srv e s = .ok (false, s1) ∧ s1.trace = s.trace ++ seg ∧
        seg = cycle (failedInsert srv (payloadOf e s.heap a)) 12 ∧
        (seg.filter Action.isInsert).length = 12) ∧
    (∀ e : Event, ∃ s2 seg, deleteEvent P srv e s = (false, s2) ∧ s2.trace = s.trace ++ seg ∧
        seg = cycle (failedDelete srv e.Id) 12 ∧
        (seg.filter Action.isDelete).length = 12) ∧
    (∀ (Q : Provider W) (c : Event), ∃ seg,
        (insertLoop Q srv c COPY_RETRIES s).2.trace = s.trace ++ seg ∧
        (seg.filter Action.isInsert).length ≤ 12) ∧
    (∀ (Q : Provider W) (e : Event), ∃ seg,
        (deleteEvent Q srv e s).2.trace = s.trace ++ seg ∧
        (seg.filter Action.isDelete).length ≤ 12) := by
  refine ⟨?_, ?_, ?_, ?_, ?_⟩
  · intro c
    obtain ⟨k, _, _, _, htrace, _, hno, hyes⟩ := insertLoop_shape P srv c COPY_RETRIES s
    cases hb : (insertLoop P srv c COPY_RETRIES s).1 with
    | true => have := (hyes hb).2; rw [hins] at this; cases this
    | false =>
        have hk : k = 12 := hno hb
        subst hk
        rw [hb] at htrace
        refine ⟨(insertLoop P srv c COPY_RETRIES s).2, _, ?_, ?_, rfl,
          insertCount_failedInsert _ _ _⟩
        · rw [← hb]
        · simpa using htrace
  · intro e a hrem
    obtain ⟨b, s1, k, hrun, _, _, _, htrace, _, hno, hyes⟩ := copyEvent_shape P srv e a s hrem
    cases b with
    | true => have := (hyes rfl).2; rw [hins] at this; cases this
    | false =>
        have hk : k = 12 := hno rfl
        subst hk
        refine ⟨s1, _, hrun, ?_, rfl, insertCount_failedInsert _ _ _⟩
        simpa using htrace
  · intro e
    obtain ⟨b, s1, k, hrun, _, _, _, htrace, _, hno, hyes⟩ := deleteEvent_shape P srv e s
    cases b with
    | true => have := (hyes rfl).2; rw [hdel] at this; cases this
    | false =>
        have hk : k = 12 := hno rfl
        subst hk
        refine ⟨s1, _, hrun, ?_, rfl, deleteCount_failedDelete _ _ _⟩
        simpa using htrace
  · intro Q c
    obtain ⟨k, hk, _, _, htrace, _, hno, hyes⟩ := insertLoop_shape Q srv c COPY_RETRIES s
    refine ⟨_, by rw [htrace, List.append_assoc], ?_⟩
    rw [List.filter_append, List.length_append, insertCount_failedInsert]
    cases hb : (insertLoop Q srv c COPY_RETRIES s).1 with
    | true =>
        have := (hyes hb).1
        simp [Action.isInsert, COPY_RETRIES] at this ⊢
        omega
    | false => simpa [COPY_RETRIES] using hk
  · intro Q e
    obtain ⟨b, s1, k, hrun, hk, _, _, htrace, _, hno, hyes⟩ := deleteEvent_shape Q srv e s
    rw [hrun]
    refine ⟨_, by rw [htrace, List.append_assoc], ?_⟩
    rw [List.filter_append, List.length_append, deleteCount_failedDelete]
    cases b with
    | true =>
        have := (hyes rfl).1
        simp [Action.isDelete, DELETE_RETRIES] at this ⊢
        omega
    | false => simpa [DELETE_RETRIES] using hk

/-- C4 at a concrete input: the always-failing provider from the sample state. -/
theorem retry_bound_witness :
    (∀ w sv cal p, (failing.insert w sv cal p).1 = false) ∧
    (∀ w sv cal id, (failing.delete w sv cal id).1 = false) ∧
    ((∀ c : Event, ∃ s1 seg, insertLoop failing Srv.dest c COPY_RETRIES (sampleSt ()) = (false, s1) ∧
        s1.trace = (sampleSt ()).trace ++ seg ∧
        seg = cycle (failedInsert Srv.dest ⟨c, deref (sampleSt ()).heap c.Reminders⟩) 12 ∧
        (seg.filter Action.isInsert).length = 12) ∧
    (∀ (e : Event) (a : Nat), e.Reminders = some a →
      ∃ s1 seg, copyEvent failing Srv.dest e (sampleSt ()) = .ok (false, s1) ∧
        s1.trace = (sampleSt ()).trace ++ seg ∧
        seg = cycle (failedInsert Srv.dest (payloadOf e (sampleSt ()).heap a)) 12 ∧
        (seg.filter Action.isInsert).length = 12) ∧
    (∀ e : Event, ∃ s2 seg, deleteEvent failing Srv.dest e (sampleSt ()) = (false, s2) ∧
        s2.trace = (sampleSt ()).trace ++ seg ∧
        seg = cycle (failedDelete Srv.dest e.Id) 12 ∧
        (seg.filter Action.isDelete).length = 12) ∧
    (∀ (Q : Provider Unit) (c : Event), ∃ seg,
        (insertLoop Q Srv.dest c COPY_RETRIES (sampleSt ())).2.trace = (sampleSt ()).trace ++ seg ∧
        (seg.filter Action.isInsert).length ≤ 12) ∧
    (∀ (Q : Provider Unit) (e : Event), ∃ seg,
        (deleteEvent Q Srv.dest e (sampleSt ())).2.trace = (sampleSt ()).trace ++ seg ∧
        (seg.filter Action.isDelete).length ≤ 12)) :=
  ⟨fun _ _ _ _ => rfl, fun _ _ _ _ => rfl,
    retry_bound failing Srv.dest (sampleSt ()) (fun _ _ _ _ => rfl) (fun _ _ _ _ => rfl)⟩

theorem lastAction_cycle_pair (x y : Action) (k : Nat) :
    (cycle [x, y] (k + 1)).getLast? = some y := by
  rw [cycle_snoc]
  have : cycle [x, y] k ++ [x, y] = (cycle [x, y] k ++ [x]) ++ [y] := by simp
  rw [this, List.getLast?_concat]

theorem sixty_seconds : 12 * COPY_RETRY_DELAY = 60 * Second ∧ 12 * DELETE_RETRY_DELAY = 60 * Second := by
  unfold COPY_RETRY_DELAY DELETE_RETRY_DELAY
  constructor <;> omega

/-- C5 (amended).  With a provider on which every call fails, a retry phase
(the retry loop of copyEvent for every payload, hence copyEvent for every event
whose reminders record is present, and likewise deleteEvent) sleeps the fixed
5-second delay exactly 12 times, once after each of its 12 failed attempts, the
12th (last) included: the last action before it gives up is a sleep, and the
total time slept in an exhausted phase is 12 x 5 s = 60 s. -/
theorem retry_sleeps_after_every_failure {W : Type} (P : Provider W) (srv : Srv) (s : St W)
    (hins : ∀ w sv cal p, (P.insert w sv cal p).1 = false)
    (hdel : ∀ w sv cal id, (P.delete w sv cal id).1 = false) :
    (∀ c : Event, ∃ s1 seg, insertLoop P srv c COPY_RETRIES s = (false, s1) ∧
        s1.trace = s.trace ++ seg ∧
        seg = cycle [Action.insert srv DEFAULT_CALENDAR_ID ⟨c, deref s.heap c.Reminders⟩ false,
                     Action.sleep COPY_RETRY_DELAY] 12 ∧
        (seg.filter Action.isSleep).length = 12 ∧
        seg.getLast? = some (Action.sleep COPY_RETRY_DELAY) ∧
        totalSlept seg = 60 * Second) ∧
    (∀ (e : Event) (a : Nat), e.Reminders = some a →
      ∃ s1 seg, copyEvent P srv e s = .ok (false, s1) ∧ s1.trace = s.trace ++ seg ∧
        seg = cycle [Action.insert srv DEFAULT_CALENDAR_ID (payloadOf e s.heap a) false,
                     Action.sleep COPY_RETRY_DELAY] 12 ∧
        (seg.filter Action.isSleep).length = 12 ∧
        seg.getLast? = some (Action.sleep COPY_RETRY_DELAY) ∧
        totalSlept seg = 60 * Second) ∧
    (∀ e : Event, ∃ s2 seg, deleteEvent P srv e s = (false, s2) ∧ s2.trace = s.trace ++ seg ∧
        seg = cycle [Action.delete srv DEFAULT_CALENDAR_ID e.Id false,
                     Action.sleep DELETE_RETRY_DELAY] 12 ∧
        (seg.filter Action.isSleep).length = 12 ∧
        seg.getLast? = some (Action.sleep DELETE_RETRY_DELAY) ∧
        totalSlept seg = 60 * Second) := by
  refine ⟨?_, ?_, ?_⟩
  · intro c
    obtain ⟨k, _, _, _, htrace, _, hno, hyes⟩ := insertLoop_shape P srv c COPY_RETRIES s
    cases hb : (insertLoop P srv c COPY_RETRIES s).1 with
    | true => have := (hyes hb).2; rw [hins] at this; cases this
    | false =>
        have hk : k = 12 := hno hb
        subst hk
        rw [hb] at htrace
        refine ⟨(insertLoop P srv c COPY_RETRIES s).2, _, by rw [← hb], by simpa using htrace,
          rfl, sleepCount_failedInsert _ _ _, ?_, ?_⟩
        · exact lastAction_cycle_pair _ _ 11
        · exact (totalSlept_failedInsert srv _ 12).trans sixty_seconds.1
  · intro e a hrem
    obtain ⟨b, s1, k, hrun, _, _, _, htrace, _, hno, hyes⟩ := copyEvent_shape P srv e a s hrem
    cases b with
    | true => have := (hyes rfl).2; rw [hins] at this; cases this
    | false =>
        have hk : k = 12 := hno rfl
        subst hk
        refine ⟨s1, _, hrun, by simpa using htrace, rfl, sleepCount_failedInsert _ _ _, ?_, ?_⟩
        · exact lastAction_cycle_pair _ _ 11
        · exact (totalSlept_failedInsert srv _ 12).trans sixty_seconds.1
  · intro e
    obtain ⟨b, s1, k, hrun, _, _, _, htrace, _, hno, hyes⟩ := deleteEvent_shape P srv e s
    cases b with
    | true => have := (hyes rfl).2; rw [hdel] at this; cases this
    | false =>
        have hk : k = 12 := hno rfl
        subst hk
        refine ⟨s1, _, hrun, by simpa using htrace, rfl, sleepCount_failedDelete _ _ _, ?_, ?_⟩
        · exact lastAction_cycle_pair _ _ 11
        · exact (totalSlept_failedDelete srv _ 12).trans sixty_seconds.2

/-- C5 (amended) at a concrete input: the always-failing provider from the sample
state. -/
theorem retry_sleeps_after_every_failure_witness :
    (∀ w sv cal p, (failing.insert w sv cal p).1 = false) ∧
    (∀ w sv cal id, (failing.delete w sv cal id).1 = false) ∧
    ((∀ c : Event, ∃ s1 seg, insertLoop failing Srv.dest c COPY_RETRIES (sampleSt ()) = (false, s1) ∧
        s1.trace = (sampleSt ()).trace ++ seg ∧
        seg = cycle [Action.insert Srv.dest DEFAULT_CALENDAR_ID
                       ⟨c, deref (sampleSt ()).heap c.Reminders⟩ false,
                     Action.sleep COPY_RETRY_DELAY] 12 ∧
        (seg.filter Action.isSleep).length = 12 ∧
        seg.getLast? = some (Action.sleep COPY_RETRY_DELAY) ∧
        totalSlept seg = 60 * Second) ∧
    (∀ (e : Event) (a : Nat), e.Reminders = some a →
      ∃ s1 seg, copyEvent failing Srv.dest e (sampleSt ()) = .ok (false, s1) ∧
        s1.trace = (sampleSt ()).trace ++ seg ∧
        seg = cycle [Action.insert Srv.dest DEFAULT_CALENDAR_ID
                       (payloadOf e (sampleSt ()).heap a) false,
                     Action.sleep COPY_RETRY_DELAY] 12 ∧
        (seg.filter Action.isSleep).length = 12 ∧
        seg.getLast? = some (Action.sleep COPY_RETRY_DELAY) ∧
        totalSlept seg = 60 * Second) ∧
    (∀ e : Event, ∃ s2 seg, deleteEvent failing Srv.dest e (sampleSt ()) = (false, s2) ∧
        s2.trace = (sampleSt ()).trace ++ seg ∧
        seg = cycle [Action.delete Srv.dest DEFAULT_CALENDAR_ID e.Id false,
                     Action.sleep DELETE_RETRY_DELAY] 12 ∧
        (seg.filter Action.isSleep).length = 12 ∧
        seg.getLast? = some (Action.sleep DELETE_RETRY_DELAY) ∧
        totalSlept seg = 60 * Second)) :=
  ⟨fun _ _ _ _ => rfl, fun _ _ _ _ => rfl,
    retry_sleeps_after_every_failure failing Srv.dest (sampleSt ())
      (fun _ _ _ _ => rfl) (fun _ _ _ _ => rfl)⟩

/-- C5 (counterexample).  On the always-failing provider, copyEvent for event E3
returns false after sleeping 12 times, not 11: the last action before it gives
up is a sleep (after the 12th failed Insert), and the total slept is 60 s, not
55 s.  deleteEvent does the same. -/
theorem retry_sleeps_eleven_times_fails :
    copyResult (copyEvent failing Srv.dest E3 (sampleSt ())) = some false ∧
    ((copyTrace (copyEvent failing Srv.dest E3 (sampleSt ()))).filter Action.isInsert).length = 12 ∧
    ((copyTrace (copyEvent failing Srv.dest E3 (sampleSt ()))).filter Action.isSleep).length = 12 ∧
    ((copyTrace (copyEvent failing Srv.dest E3 (sampleSt ()))).filter Action.isSleep).length ≠ 11 ∧
    (copyTrace (copyEvent failing Srv.dest E3 (sampleSt ()))).getLast?
      = some (Action.sleep COPY_RETRY_DELAY) ∧
    totalSlept (copyTrace (copyEvent failing Srv.dest E3 (sampleSt ()))) = 60 * Second ∧
    totalSlept (copyTrace (copyEvent failing Srv.dest E3 (sampleSt ()))) ≠ 55 * Second ∧
    (deleteEvent failing Srv.source E3 (sampleSt ())).1 = false ∧
    (((deleteEvent failing Srv.source E3 (sampleSt ())).2.trace).filter Action.isSleep).length = 12 ∧
    ((deleteEvent failing Srv.source E3 (sampleSt ())).2.trace).getLast?
      = some (Action.sleep DELETE_RETRY_DELAY) ∧
    totalSlept ((deleteEvent failing Srv.source E3 (sampleSt ())).2.trace) ≠ 55 * Second := by
  refine ⟨by decide, by decide, by decide, by decide, by decide, by decide, by decide,
    by decide, by decide, by decide, by decide⟩

/-- C7 (default-reminder normalization).  For an event whose reminders record is
present, copyEvent makes at least one Insert call, and every Insert call it
makes is handed the sanitized copy with a reminders record r such that: if the
original has UseDefault = true then the override list of r is empty, whatever
overrides the original carried; if the original has UseDefault = false then the
override list of r equals the original one. -/
theorem default_reminder_normalization {W : Type} (P : Provider W) (srv : Srv) (e : Event)
    (a : Nat) (s : St W) (hrem : e.Reminders = some a) :
    ∃ b s1 seg, copyEvent P srv e s = .ok (b, s1) ∧ s1.trace = s.trace ++ seg ∧
      (∃ x ∈ seg, x.isInsert = true) ∧
      (∀ x ∈ seg, x.isInsert = true →
        ∃ r ok, x = Action.insert srv DEFAULT_CALENDAR_ID ⟨clearFields e, some r⟩ ok ∧
          r.UseDefault = (s.heap a).UseDefault ∧
          ((s.heap a).UseDefault = true → r.Overrides = []) ∧
          ((s.heap a).UseDefault = false → r.Overrides = (s.heap a).Overrides)) := by
  obtain ⟨b, s1, k, hrun, hk, _, _, htrace, _, hno, hyes⟩ := copyEvent_shape P srv e a s hrem
  refine ⟨b, s1, _, hrun, by rw [htrace, List.append_assoc], ?_, ?_⟩
  · cases b with
    | true =>
        exact ⟨Action.insert srv DEFAULT_CALENDAR_ID (payloadOf e s.heap a) true, by simp, rfl⟩
    | false =>
        have hk12 : k = 11 + 1 := hno rfl
        subst hk12
        refine ⟨Action.insert srv DEFAULT_CALENDAR_ID (payloadOf e s.heap a) false, ?_, rfl⟩
        simp [cycle, failedInsert]
  · intro x hx hins
    have hr : (normalizeReminders s.heap a a).UseDefault = (s.heap a).UseDefault ∧
        ((s.heap a).UseDefault = true → (normalizeReminders s.heap a a).Overrides = []) ∧
        ((s.heap a).UseDefault = false →
          (normalizeReminders s.heap a a).Overrides = (s.heap a).Overrides) := by
      unfold normalizeReminders
      by_cases hu : (s.heap a).UseDefault = true
      · simp [hu, Heap.write]
      · simp [hu]
    rcases List.mem_append.1 hx with hx | hx
    · have hx2 := mem_cycle hx
      simp only [failedInsert, List.mem_cons, List.mem_singleton, List.not_mem_nil, or_false] at hx2
      rcases hx2 with hx2 | hx2
      · exact ⟨_, false, hx2, hr⟩
      · subst hx2; simp [Action.isInsert] at hins
    · cases b with
      | true =>
          simp only [if_true, List.mem_singleton] at hx
          exact ⟨_, true, hx, hr⟩
      | false => simp at hx

/-- C7 at a concrete input: an event whose reminders record has UseDefault set and
still carries an override. -/
theorem default_reminder_normalization_witness :
    (sampleEvent "x" "X" (some 0)).Reminders = some 0 ∧
    (∃ b s1 seg, copyEvent scenario Srv.dest (sampleEvent "x" "X" (some 0)) (sampleSt ())
        = .ok (b, s1) ∧ s1.trace = (sampleSt ()).trace ++ seg ∧
      (∃ x ∈ seg, x.isInsert = true) ∧
      (∀ x ∈ seg, x.isInsert = true →
        ∃ r ok, x = Action.insert Srv.dest DEFAULT_CALENDAR_ID
              ⟨clearFields (sampleEvent "x" "X" (some 0)), some r⟩ ok ∧
          r.UseDefault = ((sampleSt ()).heap 0).UseDefault ∧
          (((sampleSt ()).heap 0).UseDefault = true → r.Overrides = []) ∧
          (((sampleSt ()).heap 0).UseDefault = false →
            r.Overrides = ((sampleSt ()).heap 0).Overrides))) :=
  ⟨rfl, default_reminder_normalization scenario Srv.dest (sampleEvent "x" "X" (some 0)) 0
    (sampleSt ()) rfl⟩

theorem body_copy_error {W : Type} (P : Provider W) (E : Event) (ls : LoopSt W) (s : St W)
    (h : copyEvent P Srv.dest E ls.st = .error s) :
    body P E ls = .error { ls with st := s } := by
  simp [body, h]

theorem body_copy_false {W : Type} (P : Provider W) (E : Event) (ls : LoopSt W) (s1 : St W)
    (h : copyEvent P Srv.dest E ls.st = .ok (false, s1)) :
    body P E ls = .ok { st := s1, copyFailed := ls.copyFailed ++ [E],
                        deleteFailed := ls.deleteFailed ++ [E] } := by
  simp [body, h]

theorem body_copy_true {W : Type} (P : Provider W) (E : Event) (ls : LoopSt W) (s1 s2 : St W)
    (b : Bool) (h : copyEvent P Srv.dest E ls.st = .ok (true, s1))
    (hd : deleteEvent P Srv.source E s1 = (b, s2)) :
    body P E ls = .ok { st := s2, copyFailed := ls.copyFailed,
                        deleteFailed := if b then ls.deleteFailed else ls.deleteFailed ++ [E] } := by
  cases b <;> simp [body, h, hd]

theorem mainLoop_append {W : Type} (P : Provider W) (pre post : List Event) (ls : LoopSt W) :
    mainLoop P (pre ++ post) ls =
      match mainLoop P pre ls with
      | .error x => .error x
      | .ok ls1 => mainLoop P post ls1 := by
  induction pre generalizing ls with
  | nil => simp [mainLoop]
  | cons E rest ih =>
      simp only [List.cons_append, mainLoop]
      cases hb : body P E ls with
      | error x => simp
      | ok ls1 => simpa using ih ls1

theorem copyEvent_cases {W : Type} (P : Provider W) (srv : Srv) (e : Event) (s : St W) :
    (e.Reminders = none ∧ copyEvent P srv e s = .error s) ∨
    (∃ a, e.Reminders = some a) := by
  cases h : e.Reminders with
  | none => exact Or.inl ⟨rfl, copyEvent_nil P srv e s h⟩
  | some a => exact Or.inr ⟨a, rfl⟩

/-- C8 (first success ends the copy phase).  For every N < 12: if, for an event E
whose payload is built, Insert fails on the first N attempts and succeeds on
attempt N+1, then copyEvent returns true after exactly N+1 Insert calls, the
last one being the success; the iteration of the loop goes on with a Delete
call on the source for the original Id of E and makes no further Insert call;
and if that first Delete succeeds, it is the only Delete call of the iteration
and E is appended to neither failure list. -/
theorem first_success_ends_copy {W : Type} (P : Provider W) (E : Event) (a : Nat)
    (ls : LoopSt W) (N : Nat)
    (hrem : E.Reminders = some a) (hN : N < COPY_RETRIES)
    (hfail : ∀ k, k < N →
      (P.insert (copyWorld P Srv.dest (payloadOf E ls.st.heap a) k ls.st.world) Srv.dest
        DEFAULT_CALENDAR_ID (payloadOf E ls.st.heap a)).1 = false)
    (hok : (P.insert (copyWorld P Srv.dest (payloadOf E ls.st.heap a) N ls.st.world) Srv.dest
        DEFAULT_CALENDAR_ID (payloadOf E ls.st.heap a)).1 = true) :
    ∃ s1 cseg, copyEvent P Srv.dest E ls.st = .ok (true, s1) ∧
      s1.trace = ls.st.trace ++ cseg ∧
      cseg = cycle (failedInsert Srv.dest (payloadOf E ls.st.heap a)) N ++
        [Action.insert Srv.dest DEFAULT_CALENDAR_ID (payloadOf E ls.st.heap a) true] ∧
      (cseg.filter Action.isInsert).length = N + 1 ∧
      (∃ ok rest, (finalOf (body P E ls)).st.trace =
          s1.trace ++ Action.delete Srv.source DEFAULT_CALENDAR_ID E.Id ok :: rest ∧
          ∀ x ∈ rest, x.isInsert = false) ∧
      ((P.delete s1.world Srv.source DEFAULT_CALENDAR_ID E.Id).1 = true →
        ∃ s2, body P E ls = .ok { st := s2, copyFailed := ls.copyFailed,
                                  deleteFailed := ls.deleteFailed } ∧
          s2.trace = s1.trace ++ [Action.delete Srv.source DEFAULT_CALENDAR_ID E.Id true]) := by
  obtain ⟨b, s1, k, hrun, hk, _, _, htrace, hkfail, hno, hyes⟩ :=
    copyEvent_shape P Srv.dest E a ls.st hrem
  -- the number k of failed attempts made by the code is N
  have hkN : k = N := by
    rcases Nat.lt_trichotomy k N with hlt | heq | hgt
    · have hkt : b = true := by
        cases b with
        | true => rfl
        | false => have := hno rfl; omega
      have h1 := (hyes hkt).2
      rw [hfail k hlt] at h1
      cases h1
    · exact heq
    · have h1 := hkfail N hgt
      rw [hok] at h1
      cases h1
  subst hkN
  have hb : b = true := by
    cases b with
    | true => rfl
    | false => have := hno rfl; omega
  subst hb
  simp only [if_true] at htrace
  obtain ⟨d, s2, j, hdrun, hj, _, _, hdtrace, hjfail, hdno, hdyes⟩ :=
    deleteEvent_shape P Srv.source E s1
  have hbody := body_copy_true P E ls s1 s2 d hrun hdrun
  refine ⟨s1, _, hrun, by rw [htrace, List.append_assoc], rfl, ?_, ?_, ?_⟩
  · rw [List.filter_append, List.length_append, insertCount_failedInsert]
    simp [Action.isInsert]
  · rw [hbody]
    simp only [finalOf]
    cases j with
    | zero =>
        cases d with
        | true =>
            refine ⟨true, [], ?_, by simp⟩
            simpa [cycle] using hdtrace
        | false =>
            have := hdno rfl
            simp [DELETE_RETRIES] at this
    | succ j =>
        refine ⟨false, Action.sleep DELETE_RETRY_DELAY :: (cycle (failedDelete Srv.source E.Id) j ++
          (if d then [Action.delete Srv.source DEFAULT_CALENDAR_ID E.Id true] else [])), ?_, ?_⟩
        · rw [hdtrace]
          simp [cycle, failedDelete, List.append_assoc]
        · intro x hx
          simp only [List.mem_cons, List.mem_append] at hx
          rcases hx with hx | hx | hx
          · subst hx; rfl
          · have := mem_cycle hx
            simp only [failedDelete, List.mem_cons, List.mem_singleton, List.not_mem_nil,
              or_false] at this
            rcases this with h | h <;> subst h <;> rfl
          · cases d with
            | true =>
                simp only [if_true, List.mem_singleton] at hx
                subst hx; rfl
            | false => simp at hx
  · intro hdel
    have hj0 : j = 0 := by
      cases j with
      | zero => rfl
      | succ j =>
          have h1 := hjfail 0 (Nat.succ_pos j)
          simp only [deleteWorld] at h1
          rw [hdel] at h1
          cases h1
    subst hj0
    have hd : d = true := by
      cases d with
      | true => rfl
      | false =>
          have := hdno rfl
          simp [DELETE_RETRIES] at this
    subst hd
    refine ⟨s2, by simpa using hbody, ?_⟩
    simpa [cycle] using hdtrace

/-- C8 at a concrete input, the boundary case N = 11: Insert fails 11 times and
succeeds on the 12th and last attempt. -/
theorem first_success_ends_copy_witness :
    E1.Reminders = some 1 ∧ 11 < COPY_RETRIES ∧
    (∀ k, k < 11 →
      ((flaky 11).insert
        (copyWorld (flaky 11) Srv.dest (payloadOf E1 (initLoop (sampleSt 0)).st.heap 1) k
          (initLoop (sampleSt 0)).st.world) Srv.dest
        DEFAULT_CALENDAR_ID (payloadOf E1 (initLoop (sampleSt 0)).st.heap 1)).1 = false) ∧
    ((flaky 11).insert
        (copyWorld (flaky 11) Srv.dest (payloadOf E1 (initLoop (sampleSt 0)).st.heap 1) 11
          (initLoop (sampleSt 0)).st.world) Srv.dest
        DEFAULT_CALENDAR_ID (payloadOf E1 (initLoop (sampleSt 0)).st.heap 1)).1 = true ∧
    (∃ s1 cseg, copyEvent (flaky 11) Srv.dest E1 (initLoop (sampleSt 0)).st = .ok (true, s1) ∧
      s1.trace = (initLoop (sampleSt 0)).st.trace ++ cseg ∧
      cseg = cycle (failedInsert Srv.dest (payloadOf E1 (initLoop (sampleSt 0)).st.heap 1)) 11 ++
        [Action.insert Srv.dest DEFAULT_CALENDAR_ID
          (payloadOf E1 (initLoop (sampleSt 0)).st.heap 1) true] ∧
      (cseg.filter Action.isInsert).length = 11 + 1 ∧
      (∃ ok rest, (finalOf (body (flaky 11) E1 (initLoop (sampleSt 0)))).st.trace =
          s1.trace ++ Action.delete Srv.source DEFAULT_CALENDAR_ID E1.Id ok :: rest ∧
          ∀ x ∈ rest, x.isInsert = false) ∧
      (((flaky 11).delete s1.world Srv.source DEFAULT_CALENDAR_ID E1.Id).1 = true →
        ∃ s2, body (flaky 11) E1 (initLoop (sampleSt 0)) =
            .ok { st := s2, copyFailed := (initLoop (sampleSt 0)).copyFailed,
                  deleteFailed := (initLoop (sampleSt 0)).deleteFailed } ∧
          s2.trace = s1.trace ++ [Action.delete Srv.source DEFAULT_CALENDAR_ID E1.Id true])) := by
  have hw : ∀ k w, copyWorld (flaky 11) Srv.dest
      (payloadOf E1 (initLoop (sampleSt 0)).st.heap 1) k w = w + k := by
    intro k
    induction k with
    | zero => intro w; rfl
    | succ k ih =>
        intro w
        simp only [copyWorld]
        rw [ih]
        simp only [flaky]
        omega
  have h1 : ∀ k, k < 11 →
      ((flaky 11).insert
        (copyWorld (flaky 11) Srv.dest (payloadOf E1 (initLoop (sampleSt 0)).st.heap 1) k
          (initLoop (sampleSt 0)).st.world) Srv.dest
        DEFAULT_CALENDAR_ID (payloadOf E1 (initLoop (sampleSt 0)).st.heap 1)).1 = false := by
    intro k hk
    rw [hw]
    simp only [flaky, initLoop, sampleSt, decide_eq_false_iff_not]
    omega
  have h2 : ((flaky 11).insert
        (copyWorld (flaky 11) Srv.dest (payloadOf E1 (initLoop (sampleSt 0)).st.heap 1) 11
          (initLoop (sampleSt 0)).st.world) Srv.dest
        DEFAULT_CALENDAR_ID (payloadOf E1 (initLoop (sampleSt 0)).st.heap 1)).1 = true := by
    rw [hw]
    simp [flaky, initLoop, sampleSt]
  exact ⟨rfl, by decide, h1, h2,
    first_success_ends_copy (flaky 11) E1 1 (initLoop (sampleSt 0)) 11 rfl (by decide) h1 h2⟩

theorem body_shape {W : Type} (P : Provider W) (E : Event) (ls : LoopSt W) :
    (E.Reminders = none ∧ copyEvent P Srv.dest E ls.st = .error ls.st ∧ body P E ls = .error ls) ∨
    (∃ a s1, E.Reminders = some a ∧ copyEvent P Srv.dest E ls.st = .ok (false, s1) ∧
      s1.trace = ls.st.trace ++ cycle (failedInsert Srv.dest (payloadOf E ls.st.heap a)) 12 ∧
      body P E ls = .ok { st := s1, copyFailed := ls.copyFailed ++ [E],
                          deleteFailed := ls.deleteFailed ++ [E] }) ∨
    (∃ a s1 k d s2 j, E.Reminders = some a ∧ copyEvent P Srv.dest E ls.st = .ok (true, s1) ∧
      k < 12 ∧
      s1.trace = ls.st.trace ++ cycle (failedInsert Srv.dest (payloadOf E ls.st.heap a)) k ++
        [Action.insert Srv.dest DEFAULT_CALENDAR_ID (payloadOf E ls.st.heap a) true] ∧
      deleteEvent P Srv.source E s1 = (d, s2) ∧
      s2.trace = s1.trace ++ cycle (failedDelete Srv.source E.Id) j ++
        (if d then [Action.delete Srv.source DEFAULT_CALENDAR_ID E.Id true] else []) ∧
      (d = false → j = 12) ∧ (d = true → j < 12) ∧
      body P E ls = .ok { st := s2, copyFailed := ls.copyFailed,
                          deleteFailed := if d then ls.deleteFailed else ls.deleteFailed ++ [E] }) := by
  rcases copyEvent_cases P Srv.dest E ls.st with ⟨hnone, hcrash⟩ | ⟨a, hrem⟩
  · exact Or.inl ⟨hnone, hcrash, body_copy_error P E ls ls.st hcrash⟩
  · obtain ⟨b, s1, k, hrun, hk, _, _, htrace, _, hno, hyes⟩ :=
      copyEvent_shape P Srv.dest E a ls.st hrem
    cases b with
    | false =>
        have hk12 : k = 12 := hno rfl
        subst hk12
        refine Or.inr (Or.inl ⟨a, s1, hrem, hrun, by simpa using htrace,
          body_copy_false P E ls s1 hrun⟩)
    | true =>
        obtain ⟨d, s2, j, hdrun, hj, _, _, hdtrace, _, hdno, hdyes⟩ :=
          deleteEvent_shape P Srv.source E s1
        refine Or.inr (Or.inr ⟨a, s1, k, d, s2, j, hrem, hrun, (hyes rfl).1,
          by simpa using htrace, hdrun, hdtrace, hdno, fun h => (hdyes h).1,
          body_copy_true P E ls s1 s2 d hrun hdrun⟩)

theorem not_isDelete_of_mem_failedInsert {srv : Srv} {p : Payload} {k : Nat} {x : Action}
    (h : x ∈ cycle (failedInsert srv p) k) : x.isDelete = false := by
  have := mem_cycle h
  simp only [failedInsert, List.mem_cons, List.mem_singleton, List.not_mem_nil, or_false] at this
  rcases this with h | h <;> subst h <;> rfl

theorem not_isInsert_of_mem_failedDelete {srv : Srv} {id : String} {k : Nat} {x : Action}
    (h : x ∈ cycle (failedDelete srv id) k) : x.isInsert = false := by
  have := mem_cycle h
  simp only [failedDelete, List.mem_cons, List.mem_singleton, List.not_mem_nil, or_false] at this
  rcases this with h | h <;> subst h <;> rfl

theorem delete_of_mem_failedDelete {srv : Srv} {id : String} {k : Nat} {x : Action}
    (h : x ∈ cycle (failedDelete srv id) k) (hx : x.isDelete = true) :
    x = Action.delete srv DEFAULT_CALENDAR_ID id false := by
  have := mem_cycle h
  simp only [failedDelete, List.mem_cons, List.mem_singleton, List.not_mem_nil, or_false] at this
  rcases this with h | h
  · exact h
  · subst h; simp [Action.isDelete] at hx

theorem body_trace {W : Type} (P : Provider W) (E : Event) (ls : LoopSt W) :
    ∃ seg, (finalOf (body P E ls)).st.trace = ls.st.trace ++ seg := by
  rcases body_shape P E ls with ⟨_, _, hb⟩ | ⟨a, s1, _, _, ht, hb⟩ |
      ⟨a, s1, k, d, s2, j, _, _, _, ht, _, hdt, _, _, hb⟩
  · exact ⟨[], by rw [hb]; simp [finalOf]⟩
  · exact ⟨_, by rw [hb]; simpa [finalOf] using ht⟩
  · refine ⟨cycle (failedInsert Srv.dest (payloadOf E ls.st.heap a)) k ++
        ([Action.insert Srv.dest DEFAULT_CALENDAR_ID (payloadOf E ls.st.heap a) true] ++
          (cycle (failedDelete Srv.source E.Id) j ++
            (if d then [Action.delete Srv.source DEFAULT_CALENDAR_ID E.Id true] else []))), ?_⟩
    rw [hb]
    simp only [finalOf]
    rw [hdt, ht]
    simp only [List.append_assoc]

theorem mainLoop_trace {W : Type} (P : Provider W) (items : List Event) (ls : LoopSt W) :
    ∃ tail, (finalOf (mainLoop P items ls)).st.trace = ls.st.trace ++ tail := by
  induction items generalizing ls with
  | nil => exact ⟨[], by simp [mainLoop, finalOf]⟩
  | cons E rest ih =>
      obtain ⟨seg, hseg⟩ := body_trace P E ls
      simp only [mainLoop]
      cases hb : body P E ls with
      | error x =>
          rw [hb] at hseg
          exact ⟨seg, by simpa [finalOf] using hseg⟩
      | ok ls1 =>
          rw [hb] at hseg
          simp only [finalOf] at hseg
          obtain ⟨tail, htail⟩ := ih ls1
          refine ⟨seg ++ tail, ?_⟩
          simp only [htail, hseg, List.append_assoc]

theorem mainLoop_cons_trace {W : Type} (P : Provider W) (E : Event) (post : List Event)
    (ls : LoopSt W) (seg : List Action)
    (hseg : (finalOf (body P E ls)).st.trace = ls.st.trace ++ seg) :
    ∃ tail, (finalOf (mainLoop P (E :: post) ls)).st.trace = ls.st.trace ++ seg ++ tail := by
  simp only [mainLoop]
  cases hb : body P E ls with
  | error x =>
      rw [hb] at hseg
      exact ⟨[], by simpa [finalOf] using hseg⟩
  | ok ls1 =>
      rw [hb] at hseg
      simp only [finalOf] at hseg
      obtain ⟨tail, htail⟩ := mainLoop_trace P post ls1
      exact ⟨tail, by simp only [htail, hseg]⟩

/-- C3 (copy failure bookkeeping).  When the loop reaches an event E of the
source list and copyEvent returns false for it, then all 12 Insert attempts
failed, the iteration appends E exactly once to copyFailed and exactly once to
deleteFailed, the iteration makes no Delete call at all, and the loop goes on
with the next event. -/
theorem copy_failure_bookkeeping {W : Type} (P : Provider W) (pre post : List Event) (E : Event)
    (ls0 ls : LoopSt W) (s1 : St W)
    (hpre : mainLoop P pre ls0 = .ok ls)
    (hcopy : copyEvent P Srv.dest E ls.st = .ok (false, s1)) :
    ∃ a seg,
      E.Reminders = some a ∧
      s1.trace = ls.st.trace ++ seg ∧
      seg = cycle (failedInsert Srv.dest (payloadOf E ls.st.heap a)) 12 ∧
      (seg.filter Action.isInsert).length = 12 ∧
      (∀ x ∈ seg, x.isDelete = false) ∧
      body P E ls = .ok { st := s1, copyFailed := ls.copyFailed ++ [E],
                          deleteFailed := ls.deleteFailed ++ [E] } ∧
      mainLoop P (pre ++ [E]) ls0 =
        .ok { st := s1, copyFailed := ls.copyFailed ++ [E],
              deleteFailed := ls.deleteFailed ++ [E] } ∧
      mainLoop P (pre ++ E :: post) ls0 =
        mainLoop P post { st := s1, copyFailed := ls.copyFailed ++ [E],
                          deleteFailed := ls.deleteFailed ++ [E] } := by
  rcases body_shape P E ls with ⟨_, hc, _⟩ | ⟨a, s1', hrem, hc, ht, hb⟩ |
      ⟨_, _, _, _, _, _, _, hc, _⟩
  · rw [hc] at hcopy; cases hcopy
  · rw [hc] at hcopy
    have hs : s1' = s1 := by
      injection hcopy with h
      injection h
    subst hs
    refine ⟨a, _, hrem, ht, rfl, insertCount_failedInsert _ _ _,
      fun x hx => not_isDelete_of_mem_failedInsert hx, hb, ?_, ?_⟩
    · rw [mainLoop_append, hpre]
      simp [mainLoop, hb]
    · rw [mainLoop_append, hpre]
      simp [mainLoop, hb]
  · rw [hc] at hcopy
    injection hcopy with h
    injection h with h1 _
    cases h1

/-- C3 at a concrete input: the second event of the end-to-end scenario, whose
copy always fails, reached after the first event was migrated. -/
theorem copy_failure_bookkeeping_witness :
    mainLoop scenario [E1] (initLoop (sampleSt ())) = .ok afterE1 ∧
    copyEvent scenario Srv.dest E2 afterE1.st = .ok (false, afterE2copy) ∧
    (∃ a seg,
      E2.Reminders = some a ∧
      afterE2copy.trace = afterE1.st.trace ++ seg ∧
      seg = cycle (failedInsert Srv.dest (payloadOf E2 afterE1.st.heap a)) 12 ∧
      (seg.filter Action.isInsert).length = 12 ∧
      (∀ x ∈ seg, x.isDelete = false) ∧
      body scenario E2 afterE1 =
        .ok { st := afterE2copy, copyFailed := afterE1.copyFailed ++ [E2],
              deleteFailed := afterE1.deleteFailed ++ [E2] } ∧
      mainLoop scenario ([E1] ++ [E2]) (initLoop (sampleSt ())) =
        .ok { st := afterE2copy, copyFailed := afterE1.copyFailed ++ [E2],
              deleteFailed := afterE1.deleteFailed ++ [E2] } ∧
      mainLoop scenario ([E1] ++ E2 :: [E3]) (initLoop (sampleSt ())) =
        mainLoop scenario [E3]
          { st := afterE2copy, copyFailed := afterE1.copyFailed ++ [E2],
            deleteFailed := afterE1.deleteFailed ++ [E2] }) :=
  ⟨rfl, rfl,
    copy_failure_bookkeeping scenario [E1] [E3] E2 (initLoop (sampleSt ())) afterE1 afterE2copy
      rfl rfl⟩

/-- C1 (copy-before-delete).  Take any provider, any source list split as
pre ++ E :: post, and any starting state.  If the loop crashes before it reaches
E, the run ends there and nothing is issued for E.  Otherwise the iteration for E
appends a segment seg to the trace (and the rest of the run only appends after
it) such that: seg contains a Delete call if and only if copyEvent returned true
for E; every Delete call in seg is a call on the source for the Id of E; and when
copyEvent returned true, seg is the copy segment, which holds fewer than 12
failed Insert calls and no Delete call and ends with the successful Insert,
followed by the delete segment, which holds every Delete call of the iteration
(at least one) and no Insert call. -/
theorem copy_before_delete {W : Type} (P : Provider W) (pre post : List Event) (E : Event)
    (ls0 : LoopSt W) :
    match mainLoop P pre ls0 with
    | .error x => mainLoop P (pre ++ E :: post) ls0 = .error x
    | .ok ls =>
        ∃ seg tail,
          (finalOf (body P E ls)).st.trace = ls.st.trace ++ seg ∧
          (finalOf (mainLoop P (pre ++ E :: post) ls0)).st.trace = ls.st.trace ++ seg ++ tail ∧
          ((∃ x ∈ seg, x.isDelete = true) ↔
            copyResult (copyEvent P Srv.dest E ls.st) = some true) ∧
          (∀ x ∈ seg, x.isDelete = true →
            ∃ ok, x = Action.delete Srv.source DEFAULT_CALENDAR_ID E.Id ok) ∧
          (copyResult (copyEvent P Srv.dest E ls.st) = some true →
            ∃ cseg p dseg,
              seg = cseg ++ [Action.insert Srv.dest DEFAULT_CALENDAR_ID p true] ++ dseg ∧
              copyTrace (copyEvent P Srv.dest E ls.st) =
                ls.st.trace ++ cseg ++ [Action.insert Srv.dest DEFAULT_CALENDAR_ID p true] ∧
              (cseg.filter Action.isInsert).length < 12 ∧
              (∀ x ∈ cseg, x.isDelete = false) ∧
              (∀ x ∈ dseg, x.isInsert = false) ∧
              (∃ x ∈ dseg, x.isDelete = true)) := by
  cases hpre : mainLoop P pre ls0 with
  | error x =>
      show mainLoop P (pre ++ E :: post) ls0 = .error x
      rw [mainLoop_append, hpre]
  | ok ls =>
      show ∃ seg tail, _
      have hwhole : ∀ seg, (finalOf (body P E ls)).st.trace = ls.st.trace ++ seg →
          ∃ tail, (finalOf (mainLoop P (pre ++ E :: post) ls0)).st.trace
            = ls.st.trace ++ seg ++ tail := by
        intro seg hseg
        rw [mainLoop_append, hpre]
        exact mainLoop_cons_trace P E post ls seg hseg
      rcases body_shape P E ls with ⟨_, hc, hb⟩ | ⟨a, s1, _, hc, ht, hb⟩ |
          ⟨a, s1, k, d, s2, j, _, hc, hk, ht, hd, hdt, hdno, hdyes, hb⟩
      · -- crash in copyEvent: nothing is issued
        have hseg : (finalOf (body P E ls)).st.trace = ls.st.trace ++ [] := by
          rw [hb]; simp [finalOf]
        obtain ⟨tail, htail⟩ := hwhole [] hseg
        refine ⟨[], tail, hseg, htail, ?_, ?_, ?_⟩
        · rw [hc]; simp [copyResult]
        · intro x hx; simp at hx
        · rw [hc]; simp [copyResult]
      · -- copy exhausted: twelve failed Insert calls, no Delete
        have hseg : (finalOf (body P E ls)).st.trace =
            ls.st.trace ++ cycle (failedInsert Srv.dest (payloadOf E ls.st.heap a)) 12 := by
          rw [hb]; simpa [finalOf] using ht
        obtain ⟨tail, htail⟩ := hwhole _ hseg
        refine ⟨_, tail, hseg, htail, ?_, ?_, ?_⟩
        · rw [hc]
          simp only [copyResult, Option.some.injEq, Bool.false_eq_true, iff_false, not_exists,
            not_and]
          intro x hx
          simp [not_isDelete_of_mem_failedInsert hx]
        · intro x hx hdel
          rw [not_isDelete_of_mem_failedInsert hx] at hdel
          cases hdel
        · rw [hc]; simp [copyResult]
      · -- copy succeeded: copy segment, then delete segment
        have hseg : (finalOf (body P E ls)).st.trace =
            ls.st.trace ++ (cycle (failedInsert Srv.dest (payloadOf E ls.st.heap a)) k ++
              [Action.insert Srv.dest DEFAULT_CALENDAR_ID (payloadOf E ls.st.heap a) true] ++
              (cycle (failedDelete Srv.source E.Id) j ++
                (if d then [Action.delete Srv.source DEFAULT_CALENDAR_ID E.Id true] else []))) := by
          rw [hb]
          simp only [finalOf]
          rw [hdt, ht]
          simp only [List.append_assoc]
        obtain ⟨tail, htail⟩ := hwhole _ hseg
        -- at least one Delete call is made
        have hone : ∃ x ∈ cycle (failedDelete Srv.source E.Id) j ++
            (if d then [Action.delete Srv.source DEFAULT_CALENDAR_ID E.Id true] else []),
            x.isDelete = true := by
          cases d with
          | true =>
              exact ⟨Action.delete Srv.source DEFAULT_CALENDAR_ID E.Id true, by simp, rfl⟩
          | false =>
              have hj : j = 11 + 1 := hdno rfl
              subst hj
              exact ⟨Action.delete Srv.source DEFAULT_CALENDAR_ID E.Id false,
                by simp [cycle, failedDelete], rfl⟩
        refine ⟨_, tail, hseg, htail, ?_, ?_, ?_⟩
        · rw [hc]
          simp only [copyResult, iff_true]
          obtain ⟨x, hx, hxd⟩ := hone
          exact ⟨x, List.mem_append_right _ hx, hxd⟩
        · intro x hx hdel
          rcases List.mem_append.1 hx with hx | hx
          · rcases List.mem_append.1 hx with hx | hx
            · rw [not_isDelete_of_mem_failedInsert hx] at hdel
              cases hdel
            · simp only [List.mem_singleton] at hx
              subst hx
              cases hdel
          · rcases List.mem_append.1 hx with hx | hx
            · exact ⟨false, delete_of_mem_failedDelete hx hdel⟩
            · cases d with
              | true =>
                  simp only [if_true, List.mem_singleton] at hx
                  exact ⟨true, hx⟩
              | false => simp at hx
        · intro _
          refine ⟨_, payloadOf E ls.st.heap a, _, rfl, ?_, ?_, ?_, ?_, hone⟩
          · rw [hc]
            simpa [copyTrace] using ht
          · rw [insertCount_failedInsert]; exact hk
          · intro x hx
            exact not_isDelete_of_mem_failedInsert hx
          · intro x hx
            rcases List.mem_append.1 hx with hx | hx
            · exact not_isInsert_of_mem_failedDelete hx
            · cases d with
              | true =>
                  simp only [if_true, List.mem_singleton] at hx
                  subst hx; rfl
              | false => simp at hx

theorem select_cons (E : Event) (items : List Event) (o : Outcome) (os : List Outcome)
    (q : Outcome → Bool) :
    select (E :: items) (o :: os) q = (if q o then [E] else []) ++ select items os q := by
  cases h : q o <;> simp [select, List.zip_cons_cons, List.filter_cons, h]

theorem mainLoop_ok_iff {W : Type} (P : Provider W) (items : List Event) (ls : LoopSt W) :
    (∃ fin, mainLoop P items ls = .ok fin) ↔ ∀ e ∈ items, e.Reminders ≠ none := by
  induction items generalizing ls with
  | nil => simp [mainLoop]
  | cons E rest ih =>
      simp only [mainLoop, List.mem_cons, forall_eq_or_imp]
      rcases body_shape P E ls with ⟨hn, _, hb⟩ | ⟨a, s1, hrem, _, _, hb⟩ |
          ⟨a, s1, k, d, s2, j, hrem, _, _, _, _, _, _, _, hb⟩
      · rw [hb]; simp [hn]
      · rw [hb]; simp only [hrem]; simpa using ih _
      · rw [hb]; simp only [hrem]; simpa using ih _

theorem select_partition (items : List Event) (os : List Outcome) (h : os.length = items.length) :
    (select items os (fun o => decide (o = Outcome.migrated))).length +
      (select items os (fun o => decide (o ≠ Outcome.migrated))).length = items.length := by
  induction items generalizing os with
  | nil => simp [select]
  | cons E rest ih =>
      cases os with
      | nil => simp at h
      | cons o os =>
          have h1 : os.length = rest.length := by simpa using h
          have := ih os h1
          rw [select_cons, select_cons]
          simp only [List.length_append]
          cases o
          · have e1 : decide (Outcome.migrated = Outcome.migrated) = true := by decide
            have e2 : decide (Outcome.migrated ≠ Outcome.migrated) = false := by decide
            rw [e1, e2]
            simp only [if_true, Bool.false_eq_true, if_false, List.length_cons, List.length_nil]
            omega
          · have e1 : decide (Outcome.copyFailed = Outcome.migrated) = false := by decide
            have e2 : decide (Outcome.copyFailed ≠ Outcome.migrated) = true := by decide
            rw [e1, e2]
            simp only [if_true, Bool.false_eq_true, if_false, List.length_cons, List.length_nil]
            omega
          · have e1 : decide (Outcome.deleteFailedAfterCopy = Outcome.migrated) = false := by
              decide
            have e2 : decide (Outcome.deleteFailedAfterCopy ≠ Outcome.migrated) = true := by
              decide
            rw [e1, e2]
            simp only [if_true, Bool.false_eq_true, if_false, List.length_cons, List.length_nil]
            omega

theorem body_attempted {W : Type} (P : Provider W) (E : Event) (ls : LoopSt W)
    (hrem : E.Reminders ≠ none) :
    ∃ (r : Attempted) (fin : LoopSt W), body P E ls = .ok fin ∧ r.valid E = true ∧
      fin.st.trace = ls.st.trace ++ r.segment E ∧
      fin.copyFailed = ls.copyFailed ++
        (if decide (r.outcome = Outcome.copyFailed) then [E] else []) ∧
      fin.deleteFailed = ls.deleteFailed ++
        (if decide (r.outcome ≠ Outcome.migrated) then [E] else []) := by
  rcases body_shape P E ls with ⟨hn, _, _⟩ | ⟨a, s1, _, _, ht, hb⟩ |
      ⟨a, s1, k, d, s2, j, _, _, hk, ht, _, hdt, hdno, hdyes, hb⟩
  · exact absurd hn hrem
  · refine ⟨⟨Outcome.copyFailed, payloadOf E ls.st.heap a, 12, 0⟩, _, hb, ?_, ?_, ?_, ?_⟩
    · simp [Attempted.valid, payloadOf, COPY_RETRIES]
    · simpa [Attempted.segment] using ht
    · simp
    · simp
  · cases d with
    | true =>
        have hj : j < 12 := hdyes rfl
        refine ⟨⟨Outcome.migrated, payloadOf E ls.st.heap a, k, j⟩, _, hb, ?_, ?_, ?_, ?_⟩
        · simp [Attempted.valid, payloadOf, COPY_RETRIES, DELETE_RETRIES, hk, hj]
        · simp only [Attempted.segment]
          rw [hdt, ht]
          simp only [if_true, List.append_assoc]
        · simp
        · simp
    | false =>
        have hj : j = 12 := hdno rfl
        subst hj
        refine ⟨⟨Outcome.deleteFailedAfterCopy, payloadOf E ls.st.heap a, k, 12⟩, _, hb,
          ?_, ?_, ?_, ?_⟩
        · simp [Attempted.valid, payloadOf, COPY_RETRIES, DELETE_RETRIES, hk]
        · simp only [Attempted.segment]
          rw [hdt, ht]
          simp [List.append_assoc]
        · simp
        · simp

theorem mainLoop_attempted {W : Type} (P : Provider W) (items : List Event) :
    ∀ ls : LoopSt W, (∀ e ∈ items, e.Reminders ≠ none) →
      ∃ (fin : LoopSt W) (rs : List Attempted), mainLoop P items ls = .ok fin ∧
        rs.length = items.length ∧
        (∀ x ∈ items.zip rs, x.2.valid x.1 = true) ∧
        fin.st.trace = ls.st.trace ++ (items.zip rs).flatMap (fun x => x.2.segment x.1) ∧
        fin.copyFailed = ls.copyFailed ++
          select items (rs.map Attempted.outcome) (fun o => decide (o = Outcome.copyFailed)) ∧
        fin.deleteFailed = ls.deleteFailed ++
          select items (rs.map Attempted.outcome) (fun o => decide (o ≠ Outcome.migrated)) := by
  induction items with
  | nil =>
      intro ls _
      exact ⟨ls, [], by simp [mainLoop], rfl, by simp, by simp, by simp [select],
        by simp [select]⟩
  | cons E rest ih =>
      intro ls hrem
      have hE : E.Reminders ≠ none := hrem E (List.mem_cons_self _ _)
      have hrest : ∀ e ∈ rest, e.Reminders ≠ none :=
        fun e he => hrem e (List.mem_cons_of_mem _ he)
      obtain ⟨r, fin1, hb, hv, htr, hcf, hdf⟩ := body_attempted P E ls hE
      obtain ⟨fin, rs, hrun, hlen, hvalid, htrace, hcopy, hdel⟩ := ih fin1 hrest
      refine ⟨fin, r :: rs, ?_, by simp [hlen], ?_, ?_, ?_, ?_⟩
      · simp only [mainLoop, hb]
        exact hrun
      · intro x hx
        simp only [List.zip_cons_cons, List.mem_cons] at hx
        rcases hx with hx | hx
        · subst hx; exact hv
        · exact hvalid x hx
      · rw [htrace, htr]
        simp only [List.zip_cons_cons, List.flatMap_cons, List.append_assoc]
      · rw [hcopy, hcf]
        simp only [List.map_cons, select_cons, List.append_assoc]
      · rw [hdel, hdf]
        simp only [List.map_cons, select_cons, List.append_assoc]

/-- Output of the migration loop on the lists the loop runs through.  Whether
the loop of main runs to its end does not depend on the provider: it ends
exactly when every event has a reminders record.  On such a list every event is
processed: each event has one record, in source order, and the trace grows by
exactly the segments of these records (a copy-failed event by 12 failed Insert
attempts and no Delete; an event whose delete failed by fewer than 12 failed
Inserts, the successful Insert and 12 failed Deletes; a migrated event by the
same ended by the successful Delete after fewer than 12 failed ones);
copyFailed grows by exactly the copy-failed events, deleteFailed by exactly the
events that are not migrated, both in source order, and the events in neither
list are the migrated ones. -/
theorem migration_output {W : Type} (P : Provider W) (items : List Event) (ls : LoopSt W) :
    ((∃ fin, mainLoop P items ls = .ok fin) ↔ ∀ e ∈ items, e.Reminders ≠ none) ∧
    ((∀ e ∈ items, e.Reminders ≠ none) →
      ∃ (fin : LoopSt W) (rs : List Attempted), mainLoop P items ls = .ok fin ∧
        rs.length = items.length ∧
        (∀ x ∈ items.zip rs, x.2.valid x.1 = true) ∧
        fin.st.trace = ls.st.trace ++ (items.zip rs).flatMap (fun x => x.2.segment x.1) ∧
        fin.copyFailed = ls.copyFailed ++
          select items (rs.map Attempted.outcome) (fun o => decide (o = Outcome.copyFailed)) ∧
        fin.deleteFailed = ls.deleteFailed ++
          select items (rs.map Attempted.outcome) (fun o => decide (o ≠ Outcome.migrated)) ∧
        (select items (rs.map Attempted.outcome)
            (fun o => decide (o = Outcome.migrated))).length +
          (select items (rs.map Attempted.outcome)
            (fun o => decide (o ≠ Outcome.migrated))).length = items.length) := by
  refine ⟨mainLoop_ok_iff P items ls, ?_⟩
  intro hrem
  obtain ⟨fin, rs, hrun, hlen, hvalid, htrace, hcopy, hdel⟩ := mainLoop_attempted P items ls hrem
  exact ⟨fin, rs, hrun, hlen, hvalid, htrace, hcopy, hdel,
    select_partition items (rs.map Attempted.outcome) (by simp [hlen])⟩

/-- The end-to-end scenario of spec section 8, item 6, evaluated: for the source
list [E1, E2, E3] the loop ends with copyFailed = [E2] and
deleteFailed = [E2, E3]; the trace holds 14 Insert calls (one for E1, twelve
for E2, one for E3) of which two succeeded, and 13 Delete calls (one for e1,
twelve for e3, none for e2) of which one succeeded. -/
theorem migration_output_scenario :
    ∃ fin, scenarioRun = .ok fin ∧
      fin.copyFailed = [E2] ∧ fin.deleteFailed = [E2, E3] ∧
      (fin.st.trace.filter Action.isInsert).length = 14 ∧
      (fin.st.trace.filter Action.isDelete).length = 13 ∧
      fin.st.trace.filter (fun x => x.isDelete && decide (x ≠
        Action.delete Srv.source DEFAULT_CALENDAR_ID "e3" false)) =
        [Action.delete Srv.source DEFAULT_CALENDAR_ID "e1" true] ∧
      (fin.st.trace.filter (fun x => decide (x =
        Action.insert Srv.dest DEFAULT_CALENDAR_ID (payloadOf E2 sampleHeap 1) false))).length
        = 12 := by
  refine ⟨finalOf scenarioRun, rfl, by decide, by decide, by decide, by decide, by decide,
    by decide⟩

/-- C2 (failing input).  An event whose Reminders pointer is nil stops the loop
of main for every provider, every rest of the list and every state: copyEvent
crashes at line 100 and the events after it are never processed.  On the list
[E1, noReminders, E3] with the provider of the end-to-end scenario the run
migrates E1 (one Insert, one Delete) and then crashes: nothing is issued for E3
and E3 is in neither failure list, although the same E3 right after E1 is
copied, fails to delete and is reported in deleteFailed. -/
theorem migration_stops_at_missing_reminders {W : Type} (P : Provider W) (post : List Event)
    (ls : LoopSt W) :
    mainLoop P (noReminders :: post) ls = .error ls ∧
    (∃ fin, stoppedRun = .error fin ∧
      fin.st.trace =
        [Action.insert Srv.dest DEFAULT_CALENDAR_ID (payloadOf E1 sampleHeap 1) true,
         Action.delete Srv.source DEFAULT_CALENDAR_ID "e1" true] ∧
      fin.copyFailed = [] ∧ fin.deleteFailed = []) ∧
    (∃ fin, mainLoop scenario [E1, E3] (initLoop (sampleSt ())) = .ok fin ∧
      fin.copyFailed = [] ∧ fin.deleteFailed = [E3] ∧
      (fin.st.trace.filter Action.isInsert).length = 2 ∧
      (fin.st.trace.filter Action.isDelete).length = 13) := by
  refine ⟨?_, ?_, ?_⟩
  · have hb : body P noReminders ls = .error ls :=
      body_copy_error P noReminders ls ls.st (copyEvent_nil P Srv.dest noReminders ls.st rfl)
    simp [mainLoop, hb]
  · exact ⟨finalOf stoppedRun, rfl, by decide, by decide, by decide⟩
  · exact ⟨finalOf (mainLoop scenario [E1, E3] (initLoop (sampleSt ()))), rfl, by decide,
      by decide, by decide, by decide⟩

theorem getNextPage_some {W : Type} (P : Provider W) (srv : Srv) (tok : String) (s : St W)
    (q : Events) (h : (P.list s.world srv DEFAULT_CALENDAR_ID tok).1 = some q) :
    getNextPage P srv tok s =
      some (q, { s with world := (P.list s.world srv DEFAULT_CALENDAR_ID tok).2,
                        trace := s.trace ++ [Action.list srv DEFAULT_CALENDAR_ID tok] }) := by
  unfold getNextPage
  cases hl : P.list s.world srv DEFAULT_CALENDAR_ID tok with
  | mk o w =>
      rw [hl] at h
      simp only at h
      subst h
      rfl

theorem servesChain_cons {W : Type} (P : Provider W) (srv : Srv) (w : W) (tok : String)
    (q : Events) (r : List Events) :
    servesChain P srv w tok (q :: r) = true ↔
      (P.list w srv DEFAULT_CALENDAR_ID tok).1 = some q ∧
      servesRest P srv (P.list w srv DEFAULT_CALENDAR_ID tok).2 q r = true := by
  cases r with
  | nil => simp [servesChain, servesRest]
  | cons q2 r2 => simp [servesChain, servesRest]

theorem getEventsLoop_chain {W : Type} (P : Provider W) (srv : Srv) (rest : List Events) :
    ∀ (p : Events) (items : List Event) (s : St W) (fuel : Nat),
      servesRest P srv s.world p rest = true → rest.length ≤ fuel →
      ∃ s1, getEventsLoop P srv fuel p items s =
          .ok (items ++ rest.flatMap Events.Items, s1) ∧
        s1.trace = s.trace ++
          (((p :: rest).dropLast.map Events.NextPageToken).map
            (Action.list srv DEFAULT_CALENDAR_ID)) := by
  induction rest with
  | nil =>
      intro p items s fuel h _
      have hp : p.NextPageToken = "" := by simpa [servesRest] using h
      refine ⟨s, ?_, by simp⟩
      cases fuel <;> simp [getEventsLoop, hp]
  | cons q r ih =>
      intro p items s fuel h hfuel
      simp only [servesRest, Bool.and_eq_true, decide_eq_true_eq] at h
      obtain ⟨hp, hchain⟩ := h
      obtain ⟨hq, hrest⟩ := (servesChain_cons P srv s.world p.NextPageToken q r).1 hchain
      cases fuel with
      | zero => simp at hfuel
      | succ f =>
          have hf : r.length ≤ f := by simpa using hfuel
          obtain ⟨s1, hrun, htrace⟩ := ih q (items ++ q.Items)
            { s with world := (P.list s.world srv DEFAULT_CALENDAR_ID p.NextPageToken).2,
                     trace := s.trace ++ [Action.list srv DEFAULT_CALENDAR_ID p.NextPageToken] }
            f hrest hf
          refine ⟨s1, ?_, ?_⟩
          · simp only [getEventsLoop, hp, if_false]
            rw [getNextPage_some P srv p.NextPageToken s q hq]
            simp only
            rw [hrun]
            simp [List.flatMap_cons, List.append_assoc]
          · rw [htrace]
            simp [List.dropLast_cons₂, List.append_assoc]

/-- C9 (pagination is resolved completely and in order).  If the provider serves
a finite chain of pages p0, ..., pk (the empty token fetches p0, each
NextPageToken fetches the next page, only pk has an empty NextPageToken), then
getEvents returns, once given k loop iterations, the concatenation
items(p0) ++ ... ++ items(pk), after exactly k+1 List calls: one per page, in
order, the first with the empty token and each next one with the
NextPageToken of the page before.  For a single page it returns its items. -/
theorem pagination_complete {W : Type} (P : Provider W) (srv : Srv) (pages : List Events)
    (s : St W) (fuel : Nat)
    (hchain : servesChain P srv s.world "" pages = true)
    (hfuel : pages.length ≤ fuel + 1) :
    ∃ s1, getEvents P srv fuel s = .ok (pages.flatMap Events.Items, s1) ∧
      s1.trace = s.trace ++ (fetchTokens pages).map (Action.list srv DEFAULT_CALENDAR_ID) ∧
      (fetchTokens pages).length = pages.length ∧
      (∀ p0, pages = [p0] → getEvents P srv fuel s = .ok (p0.Items, s1)) := by
  cases pages with
  | nil => simp [servesChain] at hchain
  | cons p0 rest =>
      obtain ⟨hq, hrest⟩ := (servesChain_cons P srv s.world "" p0 rest).1 hchain
      have hf : rest.length ≤ fuel := by simpa using hfuel
      obtain ⟨s1, hrun, htrace⟩ := getEventsLoop_chain P srv rest p0 p0.Items
        { s with world := (P.list s.world srv DEFAULT_CALENDAR_ID "").2,
                 trace := s.trace ++ [Action.list srv DEFAULT_CALENDAR_ID ""] }
        fuel hrest hf
      have hget : getEvents P srv fuel s = .ok ((p0 :: rest).flatMap Events.Items, s1) := by
        unfold getEvents
        rw [getNextPage_some P srv "" s p0 hq]
        simp only
        rw [hrun]
        simp [List.flatMap_cons]
      refine ⟨s1, hget, ?_, ?_, ?_⟩
      · rw [htrace]
        simp [fetchTokens, List.append_assoc]
      · cases rest with
        | nil => simp [fetchTokens]
        | cons q r => simp [fetchTokens, List.length_dropLast]
      · intro p hp
        rw [hget, hp]
        simp [List.flatMap_cons]

/-- C9 at a concrete input: a chain of three pages. -/
theorem pagination_complete_witness :
    servesChain paged Srv.source (sampleSt ()).world "" samplePages = true ∧
    samplePages.length ≤ 2 + 1 ∧
    (∃ s1, getEvents paged Srv.source 2 (sampleSt ()) =
        .ok (samplePages.flatMap Events.Items, s1) ∧
      s1.trace = (sampleSt ()).trace ++
        (fetchTokens samplePages).map (Action.list Srv.source DEFAULT_CALENDAR_ID) ∧
      (fetchTokens samplePages).length = samplePages.length ∧
      (∀ p0, samplePages = [p0] →
        getEvents paged Srv.source 2 (sampleSt ()) = .ok (p0.Items, s1))) :=
  ⟨by decide, by decide,
    pagination_complete paged Srv.source samplePages (sampleSt ()) 2 (by decide) (by decide)⟩

theorem copyEvent_payload_sanitized {W : Type} (P : Provider W) (srv : Srv) (e : Event)
    (a : Nat) (s : St W) (hrem : e.Reminders = some a) :
    ∃ b s1 seg, copyEvent P srv e s = .ok (b, s1) ∧ s1.trace = s.trace ++ seg ∧
      (∃ p ok rest, seg = Action.insert srv DEFAULT_CALENDAR_ID p ok :: rest) ∧
      (∀ x ∈ seg, x.isInsert = true →
        ∃ p ok, x = Action.insert srv DEFAULT_CALENDAR_ID p ok ∧
          p.event.Id = "" ∧ p.event.Creator = none ∧ p.event.Organizer = none ∧
          p.event.HtmlLink = "" ∧ p.event.HangoutLink = "" ∧ p.event.RecurringEventId = "" ∧
          p.event.Etag = "" ∧ p.event.ICalUID = "" ∧ p.event.Attendees.length = 0 ∧
          p.event.Summary = e.Summary ∧ p.event.Start = e.Start ∧ p.event.End = e.End) := by
  obtain ⟨b, s1, k, hrun, hk, _, _, htrace, _, hno, hyes⟩ := copyEvent_shape P srv e a s hrem
  refine ⟨b, s1, _, hrun, by rw [htrace, List.append_assoc], ?_, ?_⟩
  · cases k with
    | zero =>
        cases b with
        | true => exact ⟨payloadOf e s.heap a, true, [], by simp [cycle]⟩
        | false =>
            have := hno rfl
            simp [COPY_RETRIES] at this
    | succ k =>
        exact ⟨payloadOf e s.heap a, false,
          Action.sleep COPY_RETRY_DELAY :: (cycle (failedInsert srv (payloadOf e s.heap a)) k ++
            (if b then [Action.insert srv DEFAULT_CALENDAR_ID (payloadOf e s.heap a) true]
             else [])), by
          simp only [cycle, failedInsert, List.cons_append, List.nil_append]⟩
  · intro x hx hins
    have hp : ∀ ok, ∃ p ok', Action.insert srv DEFAULT_CALENDAR_ID (payloadOf e s.heap a) ok
          = Action.insert srv DEFAULT_CALENDAR_ID p ok' ∧
          p.event.Id = "" ∧ p.event.Creator = none ∧ p.event.Organizer = none ∧
          p.event.HtmlLink = "" ∧ p.event.HangoutLink = "" ∧ p.event.RecurringEventId = "" ∧
          p.event.Etag = "" ∧ p.event.ICalUID = "" ∧ p.event.Attendees.length = 0 ∧
          p.event.Summary = e.Summary ∧ p.event.Start = e.Start ∧ p.event.End = e.End := by
      intro ok
      exact ⟨payloadOf e s.heap a, ok, rfl, by simp [payloadOf, clearFields]⟩
    rcases List.mem_append.1 hx with hx | hx
    · have hx2 := mem_cycle hx
      simp only [failedInsert, List.mem_cons, List.mem_singleton, List.not_mem_nil, or_false] at hx2
      rcases hx2 with hx2 | hx2
      · rw [hx2]; exact hp false
      · subst hx2; simp [Action.isInsert] at hins
    · cases b with
      | true =>
          simp only [if_true, List.mem_singleton] at hx
          rw [hx]; exact hp true
      | false => simp at hx

/-- C6 (failing input).  For the event noReminders, whose Reminders pointer is
nil, copyEvent crashes at the dereference c.Reminders.UseDefault of line 100,
whatever the provider and the state: it returns no value and has made no Insert
call (the trace is unchanged), so no sanitized payload is ever submitted; one
iteration of the loop of main on it crashes too. -/
theorem sanitization_crashes_without_reminders {W : Type} (P : Provider W) (srv : Srv)
    (s : St W) (ls : LoopSt W) :
    noReminders.Reminders = none ∧
    sanitize noReminders s.heap = none ∧
    copyEvent P srv noReminders s = .error s ∧
    copyResult (copyEvent P srv noReminders s) = none ∧
    copyTrace (copyEvent P srv noReminders s) = s.trace ∧
    body P noReminders ls = .error ls ∧
    mainLoop P [noReminders, E1] ls = .error ls := by
  have h : noReminders.Reminders = none := rfl
  have hc : ∀ sv (t : St W), copyEvent P sv noReminders t = .error t :=
    fun sv t => copyEvent_nil P sv noReminders t h
  have hb : body P noReminders ls = .error ls := body_copy_error P noReminders ls ls.st (hc _ _)
  refine ⟨h, rfl, hc _ _, ?_, ?_, hb, ?_⟩
  · rw [hc]; rfl
  · rw [hc]; rfl
  · simp [mainLoop, hb]

theorem copyEvent_heap {W : Type} (P : Provider W) (srv : Srv) (e : Event) (a : Nat) (s : St W)
    (hrem : e.Reminders = some a) :
    copyHeap (copyEvent P srv e s) = normalizeReminders s.heap a ∧
    (∀ b, b ≠ a → copyHeap (copyEvent P srv e s) b = s.heap b) ∧
    ((s.heap a).UseDefault = false → copyHeap (copyEvent P srv e s) = s.heap) := by
  obtain ⟨b, s1, k, hrun, _, hheap, _⟩ := copyEvent_shape P srv e a s hrem
  have h1 : copyHeap (copyEvent P srv e s) = normalizeReminders s.heap a := by
    rw [hrun]; exact hheap
  refine ⟨h1, ?_, ?_⟩
  · intro b hb
    rw [h1]
    unfold normalizeReminders
    by_cases hu : (s.heap a).UseDefault = true
    · simp [hu, Heap.write, hb]
    · simp [hu]
  · intro hu
    rw [h1]
    simp [normalizeReminders, hu]

/-- C10 (failing input).  The event defaulted points to a reminders record with
UseDefault = true and one override.  After copyEvent, whatever the provider
does and whether the copy succeeds or not, the record the caller's event points
to has an empty override list: copyEvent has written through the pointer its
copy shares with the original (line 101), so the caller's event no longer has
the contents it had before the call. -/
theorem copyEvent_clears_caller_overrides {W : Type} (P : Provider W) (srv : Srv) (w : W)
    (tr : List Action) :
    deref sampleHeap defaulted.Reminders
      = some { Overrides := [⟨"popup", 10⟩], UseDefault := true } ∧
    deref (copyHeap (copyEvent P srv defaulted ⟨w, sampleHeap, tr⟩)) defaulted.Reminders
      = some { Overrides := [], UseDefault := true } ∧
    deref (copyHeap (copyEvent P srv defaulted ⟨w, sampleHeap, tr⟩)) defaulted.Reminders
      ≠ deref sampleHeap defaulted.Reminders := by
  have h0 : defaulted.Reminders = some 0 := rfl
  have h1 := (copyEvent_heap P srv defaulted 0 ⟨w, sampleHeap, tr⟩ h0).1
  have h2 : deref (normalizeReminders sampleHeap 0) (some 0)
      = some { Overrides := [], UseDefault := true } := by decide
  refine ⟨by decide, ?_, ?_⟩
  · rw [h1, h0]; exact h2
  · rw [h1, h0, h2]; decide

end CalendarMigrator
